import Mathlib

/-!
Verification development for the money_tracker repository (Django app).

The reporting engine of the app lives in `finance/views.py`; the data model
and its invariants live in `finance/models.py` and `finance/forms.py`.
This file gives a shallow embedding of those parts in Lean and proves the
testable properties stated in the specification.

Modelling conventions:
* A Python `datetime.date` is embedded as a `Date` structure carrying its
  `year`, `month` and `day` fields (exactly the data a Python date object
  stores).  Python compares dates as points on the time line and its
  `timedelta` arithmetic moves along that line one calendar day at a time;
  we mirror this with `Date.toOrdinal` (a proleptic-Gregorian day count)
  for comparisons and with the calendar successor/predecessor for
  day arithmetic.
* `Decimal` amounts with two decimal places are embedded as integer numbers
  of cents (`Int`).  All Decimal arithmetic performed by the app (sums and
  differences of stored amounts) is exact, and so is `Int` arithmetic, so
  the embedding is value-faithful.  The final `float(...)` conversions in
  the dashboard are presentation-only and are not modelled.
* Database querysets are embedded as Lean lists of records; `filter`,
  `aggregate(Sum(Case(...)))`, `values(...).annotate(Sum)` and `order_by`
  become list filters, folds and sorts.
-/

namespace MoneyTracker

/-! ### Calendar primitives (embedding of `datetime.date`) -/

/-- Gregorian leap-year rule, as used by Python's `datetime`. -/
def isLeap (y : Nat) : Bool :=
  (y % 4 == 0 && y % 100 != 0) || (y % 400 == 0)

/-- Number of days in month `m` (1..12) of year `y`. -/
def daysInMonth (y m : Nat) : Nat :=
  if m = 2 then (if isLeap y then 29 else 28)
  else if m = 4 ∨ m = 6 ∨ m = 9 ∨ m = 11 then 30 else 31

/-- A calendar date, exactly the fields a Python `datetime.date` stores. -/
structure Date where
  year : Nat
  month : Nat
  day : Nat
deriving DecidableEq, Repr

/-- The dates representable by Python's `datetime.date` (year 1..9999 is
Python's range; we only need `1 ≤ year` for the calendar lemmas). -/
def Date.Valid (d : Date) : Prop :=
  1 ≤ d.year ∧ 1 ≤ d.month ∧ d.month ≤ 12 ∧ 1 ≤ d.day ∧
    d.day ≤ daysInMonth d.year d.month

instance (d : Date) : Decidable d.Valid := by
  unfold Date.Valid; infer_instance

/-- Day count of the whole years `0..y-1` of the proleptic Gregorian
calendar, counted from March (so that the leap day is the last day of the
shifted year). -/
def yearDays (y : Nat) : Nat :=
  365 * y + y / 4 - y / 100 + y / 400

/-- Day offset of the start of month `m` inside the March-based year. -/
def monthOffset (m : Nat) : Nat :=
  (153 * (if m ≤ 2 then m + 9 else m - 3) + 2) / 5

/-- Day number of a date on the proleptic Gregorian time line
(day 0 = March 1 of year 0).  Strictly monotone in calendar order, so it
embeds Python's date comparison; equal to Python's `date.toordinal() + 305`. -/
def Date.toOrdinal (d : Date) : Nat :=
  yearDays (if d.month ≤ 2 then d.year - 1 else d.year) + monthOffset d.month + d.day - 1

/-- Python's `date.isoweekday()`: Monday = 1 .. Sunday = 7. -/
def Date.isoweekday (d : Date) : Nat :=
  (d.toOrdinal + 2) % 7 + 1

/-- The next calendar day (what Python's `date + timedelta(days=1)` yields). -/
def Date.succ (d : Date) : Date :=
  if d.day < daysInMonth d.year d.month then ⟨d.year, d.month, d.day + 1⟩
  else if d.month < 12 then ⟨d.year, d.month + 1, 1⟩
  else ⟨d.year + 1, 1, 1⟩

/-- The previous calendar day (`date - timedelta(days=1)`). -/
def Date.pred (d : Date) : Date :=
  if 1 < d.day then ⟨d.year, d.month, d.day - 1⟩
  else if 1 < d.month then ⟨d.year, d.month - 1, daysInMonth d.year (d.month - 1)⟩
  else ⟨d.year - 1, 12, 31⟩

/-- `date + timedelta(days=n)`. -/
def Date.addDays (d : Date) : Nat → Date
  | 0 => d
  | n + 1 => (Date.addDays d n).succ

/-- `date - timedelta(days=n)`. -/
def Date.subDays (d : Date) : Nat → Date
  | 0 => d
  | n + 1 => (Date.subDays d n).pred

/-! ### Period bucketer (embedding of `_iter_periods` and `_anchor_for`,
`finance/views.py`) -/

/-- `start - timedelta(days=(start.isoweekday() - 1))`: the Monday on or
before the given date. -/
def mondayOnOrBefore (d : Date) : Date :=
  d.subDays (d.isoweekday - 1)

/-- One step of the monthly loop of `_iter_periods`: jump to the first of
the next month, with the December → January year rollover. -/
def monthStep (cur : Date) : Date :=
  if cur.month = 12 then ⟨cur.year + 1, 1, 1⟩ else ⟨cur.year, cur.month + 1, 1⟩

/-- `start.replace(day=1)`. -/
def monthFirst (d : Date) : Date :=
  ⟨d.year, d.month, 1⟩

/-- Linear month index, used only in proofs about the monthly walk. -/
def monthIdx (d : Date) : Nat :=
  12 * d.year + d.month

/-- The weekly `while cur <= end: yield cur; cur += timedelta(days=7)` loop.
The loop in the source terminates because `cur` strictly increases; here the
same iteration is driven by a fuel argument, and `iterPeriods` below passes
fuel that is provably sufficient (one unit per day of the range is far more
than one unit per week). -/
def iterWeekly : Nat → Date → Date → List Date
  | 0, _, _ => []
  | fuel + 1, cur, e =>
    if cur.toOrdinal ≤ e.toOrdinal then cur :: iterWeekly fuel (cur.addDays 7) e
    else []

/-- The monthly `while cur <= end` loop of `_iter_periods`. -/
def iterMonthly : Nat → Date → Date → List Date
  | 0, _, _ => []
  | fuel + 1, cur, e =>
    if cur.toOrdinal ≤ e.toOrdinal then cur :: iterMonthly fuel (monthStep cur) e
    else []

/-- `_iter_periods(start, end, bucket)`: swap the endpoints if reversed,
then iterate weekly anchors (Mondays) or monthly anchors (month firsts).
The source checks `bucket == "weekly"` first, handles `"monthly"`, and
falls back to the weekly iteration for any other bucket string, which is
the same dispatch as below.  Python compares dates as points in time,
which `Date.toOrdinal` embeds. -/
def iterPeriods (start e : Date) (bucket : String) : List Date :=
  let s' := if start.toOrdinal ≤ e.toOrdinal then start else e
  let e' := if start.toOrdinal ≤ e.toOrdinal then e else start
  if bucket = "monthly" then
    iterMonthly (e'.toOrdinal + 1) (monthFirst s') e'
  else
    iterWeekly (e'.toOrdinal + 1) (mondayOnOrBefore s') e'

/-- `_anchor_for(d)` from `DashboardView.get_context_data`: the bucket
anchor of a single transaction date. -/
def anchorFor (bucket : String) (d : Date) : Date :=
  if bucket = "weekly" then mondayOnOrBefore d
  else if bucket = "monthly" then monthFirst d
  else d

/-! ### Data model (embedding of `finance/models.py`) -/

/-- A `Category` row: user-owned, named, typed Income/Expense. -/
structure Category where
  id : Nat
  user : Nat
  name : String
  type : String
deriving DecidableEq, Repr

/-- A `Transaction` row.  `amount` is the stored `Decimal` in cents
(two decimal places, exact); `category` is the FK value `category_id`. -/
structure Transaction where
  id : Nat
  user : Nat
  title : String
  amount : Int
  transaction_type : String
  category : Option Nat
  date : Date
  notes : String
deriving DecidableEq, Repr

/-! ### Aggregator (embedding of the queryset filters and sums in
`PlReportView`, `DashboardView`, `finance/views.py`) -/

/-- The windowed, user-scoped queryset
`Transaction.objects.filter(user=.., date__gte=date_from, date__lte=date_to)`. -/
def windowTxns (user : Nat) (dfrom dto : Date) (txns : List Transaction) :
    List Transaction :=
  txns.filter (fun t =>
    t.user == user && decide (dfrom.toOrdinal ≤ t.date.toOrdinal) &&
      decide (t.date.toOrdinal ≤ dto.toOrdinal))

/-- Exact sum of the `amount` column of a queryset. -/
def sumAmounts (txns : List Transaction) : Int :=
  txns.foldl (fun acc t => acc + t.amount) 0

/-- `Sum(Case(When(transaction_type="Income", then="amount"), default=0))`
over a queryset (the P&L totals aggregate), with the `or Decimal("0.00")`
fallback for an empty set folded in as the 0 starting value. -/
def caseSumIncome (txns : List Transaction) : Int :=
  txns.foldl
    (fun acc t => acc + (if t.transaction_type = "Income" then t.amount else 0)) 0

/-- The `Expense` branch of the same aggregate. -/
def caseSumExpense (txns : List Transaction) : Int :=
  txns.foldl
    (fun acc t => acc + (if t.transaction_type = "Expense" then t.amount else 0)) 0

/-- `income_total` of `PlReportView.get_context_data`. -/
def plIncomeTotal (user : Nat) (dfrom dto : Date) (txns : List Transaction) : Int :=
  caseSumIncome (windowTxns user dfrom dto txns)

/-- `expense_total` of `PlReportView.get_context_data`. -/
def plExpenseTotal (user : Nat) (dfrom dto : Date) (txns : List Transaction) : Int :=
  caseSumExpense (windowTxns user dfrom dto txns)

/-- `net_total = income_total - expense_total` of the P&L report. -/
def plNetTotal (user : Nat) (dfrom dto : Date) (txns : List Transaction) : Int :=
  plIncomeTotal user dfrom dto txns - plExpenseTotal user dfrom dto txns

/-- Dashboard KPI `income_total`: the sum of the per-type grouped totals
(`qs.values("transaction_type").annotate(total=Sum("amount"))`) restricted
to `Income`, which is the exact sum of the windowed income amounts. -/
def dashIncomeTotal (user : Nat) (dfrom dto : Date) (txns : List Transaction) : Int :=
  sumAmounts ((windowTxns user dfrom dto txns).filter
    (fun t => t.transaction_type == "Income"))

/-- Dashboard KPI `expense_total` (the rows grouped per type other than
`Income` are all `Expense` rows, because `transaction_type` has exactly the
two choices). -/
def dashExpenseTotal (user : Nat) (dfrom dto : Date) (txns : List Transaction) : Int :=
  sumAmounts ((windowTxns user dfrom dto txns).filter
    (fun t => t.transaction_type == "Expense"))

/-- Dashboard KPI `net_total = income_total - expense_total`. -/
def dashNetTotal (user : Nat) (dfrom dto : Date) (txns : List Transaction) : Int :=
  dashIncomeTotal user dfrom dto txns - dashExpenseTotal user dfrom dto txns

/-- One update of the `bucket_map` dict:
`inc, exp = bucket_map.get(anchor, (0, 0)); inc/exp += total;
bucket_map[anchor] = (inc, exp)`, on an association-list model of the dict. -/
def updAssoc (a : Date) (isIncome : Bool) (v : Int) :
    List (Date × Int × Int) → List (Date × Int × Int)
  | [] => [(a, (if isIncome then v else 0), (if isIncome then 0 else v))]
  | (b, i, e) :: rest =>
    if a = b then
      (b, i + (if isIncome then v else 0), e + (if isIncome then 0 else v)) :: rest
    else
      (b, i, e) :: updAssoc a isIncome v rest

/-- The `bucket_map` built by the dashboard loop over the windowed rows.
The source first groups the queryset per `(date, transaction_type)` in SQL
and then folds the groups; folding the transactions one by one produces the
same per-anchor sums, because integer addition is associative and
commutative and every row of a `(date, type)` group lands in the same
anchor with the same type. -/
def bucketMapOf (bucket : String) (txns : List Transaction) :
    List (Date × Int × Int) :=
  txns.foldl
    (fun m t =>
      updAssoc (anchorFor bucket t.date) (t.transaction_type == "Income") t.amount m)
    []

/-- `bucket_map.get(anchor, (Decimal("0"), Decimal("0")))`. -/
def lookupBucket (m : List (Date × Int × Int)) (a : Date) : Int × Int :=
  match m.find? (fun p => p.1 == a) with
  | some p => p.2
  | none => (0, 0)

/-- The densified dashboard line series: one entry per anchor from
`_iter_periods`, carrying `(anchor, income, expense, net)` with
`net = income - expense`.  The chart labels (`_label_for`) and the final
`float(...)` presentation conversions are not modelled; the anchor itself
identifies the bucket. -/
def dashboardSeries (user : Nat) (dfrom dto : Date) (bucket : String)
    (txns : List Transaction) : List (Date × Int × Int × Int) :=
  let m := bucketMapOf bucket (windowTxns user dfrom dto txns)
  (iterPeriods dfrom dto bucket).map (fun a =>
    let p := lookupBucket m a
    (a, p.1, p.2, p.1 - p.2))

/-! ### CSV export (embedding of `PlCsvExportView.get`) -/

/-- Strict codepoint order on strings (as lists of characters): the order a
database applies to the ASCII values `"Expense"`/`"Income"` in
`order_by("date", "transaction_type", "id")`. -/
def charsLt : List Char → List Char → Bool
  | [], [] => false
  | [], _ :: _ => true
  | _ :: _, [] => false
  | a :: as, b :: bs => a.toNat < b.toNat || (a.toNat = b.toNat && charsLt as bs)

/-- The `order_by("date", "transaction_type", "id")` comparison. -/
def csvLe (a b : Transaction) : Bool :=
  decide (a.date.toOrdinal < b.date.toOrdinal) ||
    (decide (a.date.toOrdinal = b.date.toOrdinal) &&
      (charsLt a.transaction_type.data b.transaction_type.data ||
        (decide (a.transaction_type = b.transaction_type) && decide (a.id ≤ b.id))))

/-- Insert into a sorted list (helper of the insertion sort below). -/
def insertLe {α : Type} (le : α → α → Bool) (x : α) : List α → List α
  | [] => [x]
  | y :: ys => if le x y then x :: y :: ys else y :: insertLe le x ys

/-- Insertion sort, modelling the database `ORDER BY`. -/
def insSort {α : Type} (le : α → α → Bool) : List α → List α
  | [] => []
  | x :: xs => insertLe le x (insSort le xs)

/-- Decimal digit character. -/
def digitChar (n : Nat) : Char :=
  Char.ofNat (48 + n)

/-- Two-digit zero-padded decimal rendering (for `n < 100`). -/
def two (n : Nat) : String :=
  String.mk [digitChar (n / 10), digitChar (n % 10)]

/-- Four-digit zero-padded decimal rendering (for `n < 10000`). -/
def four (n : Nat) : String :=
  String.mk [digitChar (n / 1000), digitChar (n / 100 % 10),
    digitChar (n / 10 % 10), digitChar (n % 10)]

/-- `tx.date.strftime("%Y-%m-%d")`. -/
def dateStr (d : Date) : String :=
  four d.year ++ "-" ++ two d.month ++ "-" ++ two d.day

/-- `f"{tx.amount:.2f}"` on a stored two-decimal-place `Decimal`, with the
amount held as cents. -/
def fmtAmount (cents : Int) : String :=
  if cents < 0 then "-" ++ (Nat.repr ((-cents).toNat / 100) ++ "." ++ two ((-cents).toNat % 100))
  else Nat.repr (cents.toNat / 100) ++ "." ++ two (cents.toNat % 100)

/-- Strip whitespace from both ends of a character list (`str.strip()`). -/
def trimChars (l : List Char) : List Char :=
  ((l.dropWhile Char.isWhitespace).reverse.dropWhile Char.isWhitespace).reverse

/-- `(tx.notes or "").replace("\n", " ").strip()`. -/
def cleanNotes (s : String) : String :=
  String.mk (trimChars (s.data.map (fun c => if c = '\n' then ' ' else c)))

/-- `getattr(tx.category, "name", "") or ""`: the referenced category's
name, or the empty string when there is none. -/
def catName (cats : List Category) (t : Transaction) : String :=
  match t.category with
  | none => ""
  | some cid =>
    match cats.find? (fun c => c.id == cid) with
    | some c => c.name
    | none => ""

/-- The fixed CSV header row. -/
def csvHeader : List String :=
  ["Date", "Type", "Category", "Title", "Amount", "Notes"]

/-- One CSV data row for a transaction. -/
def csvRowOf (cats : List Category) (t : Transaction) : List String :=
  [dateStr t.date, t.transaction_type, catName cats t, t.title,
    fmtAmount t.amount, cleanNotes t.notes]

/-- The data rows of the CSV export: the windowed, user-scoped set ordered
by `("date", "transaction_type", "id")`, one row per transaction. -/
def csvDataRows (user : Nat) (dfrom dto : Date) (cats : List Category)
    (txns : List Transaction) : List (List String) :=
  (insSort csvLe (windowTxns user dfrom dto txns)).map (csvRowOf cats)

/-- The full CSV payload as rows of cells: header first, then data rows. -/
def csvRows (user : Nat) (dfrom dto : Date) (cats : List Category)
    (txns : List Transaction) : List (List String) :=
  csvHeader :: csvDataRows user dfrom dto cats txns

/-- `f"pl_export_{date_from:%Y%m%d}_{date_to:%Y%m%d}.csv"`. -/
def csvFilename (dfrom dto : Date) : String :=
  "pl_export_" ++ four dfrom.year ++ two dfrom.month ++ two dfrom.day ++ "_" ++
    four dto.year ++ two dto.month ++ two dto.day ++ ".csv"

/-! ### Window parsing (embedding of `_parse_yyyymmdd` and the window
defaults of `PlReportView`, `PlCsvExportView`, `DashboardView`) -/

/-- Value of a decimal digit character, if it is one. -/
def digitVal (c : Char) : Option Nat :=
  if 48 ≤ c.toNat ∧ c.toNat ≤ 57 then some (c.toNat - 48) else none

/-- Accumulate decimal digits; fails on any non-digit. -/
def parseDigitsAux (acc : Nat) : List Char → Option Nat
  | [] => some acc
  | c :: cs =>
    match digitVal c with
    | some v => parseDigitsAux (acc * 10 + v) cs
    | none => none

/-- Parse a non-empty all-digit character list as a natural number. -/
def parseNatDigits : List Char → Option Nat
  | [] => none
  | c :: cs => parseDigitsAux 0 (c :: cs)

/-- Python's `int(s)` on a decimal string: surrounding whitespace allowed,
optional sign, then digits; anything else raises, which is `none` here.
(Python additionally allows underscore digit separators; no claim depends
on that corner.) -/
def parseIntChars (l : List Char) : Option Int :=
  match trimChars l with
  | '+' :: rest => (parseNatDigits rest).map Int.ofNat
  | '-' :: rest => (parseNatDigits rest).map (fun n => -(n : Int))
  | l' => (parseNatDigits l').map Int.ofNat

/-- Split a character list at every occurrence of a character satisfying
`p`, keeping empty pieces (`"a--b".split("-") == ["a", "", "b"]`). -/
def splitBy (p : Char → Bool) : List Char → List (List Char)
  | [] => [[]]
  | c :: cs =>
    match splitBy p cs with
    | [] => [[]]
    | g :: gs => if p c then [] :: g :: gs else (c :: g) :: gs

/-- `date(y, m, d)`: constructing a Python date validates the ranges
(year 1..9999, month 1..12, day 1..month length) and raises otherwise. -/
def mkDateChecked (y m d : Int) : Option Date :=
  if 1 ≤ y ∧ y ≤ 9999 ∧ 1 ≤ m ∧ m ≤ 12 ∧ 1 ≤ d ∧
      d ≤ (daysInMonth y.toNat m.toNat : Int) then
    some ⟨y.toNat, m.toNat, d.toNat⟩
  else none

/-- `_parse_yyyymmdd(s)`: split on `"-"`, unpack exactly three parts, parse
each with `int(...)`, build the date; any failure yields `None`.  A missing
query parameter reaches the helper as `None`, is turned into `""` by
`(s or "")` and fails the same way, so an absent string is modelled by the
empty string. -/
def parse_yyyymmdd (s : String) : Option Date :=
  match splitBy (fun c => c = '-') s.data with
  | [a, b, c] =>
    match parseIntChars a, parseIntChars b, parseIntChars c with
    | some y, some m, some d => mkDateChecked y m d
    | _, _, _ => none
  | _ => none

/-- The P&L report / CSV export window:
`date_to = _parse_yyyymmdd(GET["date_to"]) or date.today()`,
`date_from = _parse_yyyymmdd(GET["date_from"]) or (date_to - timedelta(days=29))`. -/
def reportWindow (qFrom qTo : Option String) (today : Date) : Date × Date :=
  let dto := (qTo.bind parse_yyyymmdd).getD today
  let dfrom := (qFrom.bind parse_yyyymmdd).getD (dto.subDays 29)
  (dfrom, dto)

/-- The dashboard window: same shape with a 90-day default
(`date_to - timedelta(days=89)`). -/
def dashboardWindow (qFrom qTo : Option String) (today : Date) : Date × Date :=
  let dto := (qTo.bind parse_yyyymmdd).getD today
  let dfrom := (qFrom.bind parse_yyyymmdd).getD (dto.subDays 89)
  (dfrom, dto)

/-- ASCII lowercasing of a string (`str.lower()` on the ASCII names this
app compares; Python's full Unicode case folding is not modelled). -/
def lowerStr (s : String) : String :=
  String.mk (s.data.map Char.toLower)

/-- `(GET.get("bucket") or "weekly").lower()`, constrained to the two
supported values with a weekly fallback. -/
def normBucket (q : Option String) : String :=
  let raw := match q with
    | none => "weekly"
    | some s => if s = "" then "weekly" else s
  let b := lowerStr raw
  if b = "weekly" ∨ b = "monthly" then b else "weekly"

/-! ### Write paths (embedding of `CategoryForm.clean_name`,
`Transaction.clean`/`save`, `CategoryDeleteView.post`) -/

/-- Join words with single spaces (`" ".join(...)`). -/
def joinSpace : List (List Char) → List Char
  | [] => []
  | [w] => w
  | w :: ws => w ++ ' ' :: joinSpace ws

/-- `_norm_name` from `finance/forms.py`: `" ".join(name.split())`, i.e.
split on whitespace runs (dropping empty pieces, which also trims) and
re-join with single spaces. -/
def normName (s : String) : String :=
  String.mk (joinSpace ((splitBy Char.isWhitespace s.data).filter (fun w => w ≠ [])))

/-- Case-insensitive match (`name__iexact`). -/
def iexact (a b : String) : Bool :=
  lowerStr a == lowerStr b

/-- `CategoryForm.clean_name`: normalize the posted name and reject it when
the user already has a category of the same type with a case-insensitively
equal name.  Returns the normalized name on success. -/
def clean_name (existing : List Category) (user : Nat) (ctype name : String) :
    Option String :=
  let n := normName name
  if n ≠ "" ∧ ctype ≠ "" then
    (if existing.any (fun c =>
        c.user == user && c.type == ctype && iexact c.name n) then
      none
    else some n)
  else some n

/-- Creating a category through `CategoryCreateView` + `CategoryForm`:
field validation (name required after stripping, type restricted to the two
choices) followed by `clean_name`; on success the new row is inserted with
the normalized name and the requesting user as owner. -/
def createCategory (db : List Category) (newId user : Nat)
    (name ctype : String) : Option (List Category) :=
  if normName name = "" ∨ (ctype ≠ "Income" ∧ ctype ≠ "Expense") then none
  else
    match clean_name db user ctype name with
    | none => none
    | some n => some (db ++ [⟨newId, user, n, ctype⟩])

/-- The category uniqueness invariant of the data model: no two categories
of one user share a type and a case-folded name. -/
def CatInvariant (db : List Category) : Prop :=
  List.Pairwise
    (fun a b => ¬(a.user = b.user ∧ a.type = b.type ∧ lowerStr a.name = lowerStr b.name))
    db

/-- `Transaction.save` runs `full_clean()` before writing: field validation
(required user/type/category, the two type choices, `amount ≥ 0.01`) plus
`Transaction.clean`, which requires the referenced category to belong to
the same user and to carry the same type.  `none` means a
`ValidationError`, raised before any write. -/
def fullCleanTransaction (cats : List Category) (t : Transaction) :
    Option Transaction :=
  if t.transaction_type ≠ "Income" ∧ t.transaction_type ≠ "Expense" then none
  else if t.amount < 1 then none
  else
    match t.category with
    | none => none
    | some cid =>
      match cats.find? (fun c => c.id == cid) with
      | none => none
      | some c =>
        if c.user ≠ t.user then none
        else if c.type ≠ t.transaction_type then none
        else some t

/-- Persisting a transaction: validate, then append the row; a validation
failure leaves the table untouched. -/
def saveTransaction (cats : List Category) (db : List Transaction)
    (t : Transaction) : Option (List Transaction) :=
  match fullCleanTransaction cats t with
  | none => none
  | some t' => some (db ++ [t'])

/-- The message shown by `CategoryDeleteView.post` when the FK-protected
delete raises `ProtectedError`. -/
def protectedDeleteMessage : String :=
  "You can’t delete this category because it has transactions. Delete or reassign those transactions first."

/-- `CategoryDeleteView.post`: deleting a category referenced by any
transaction is blocked by `on_delete=PROTECT`; the view catches the error
and reports the message, leaving both tables unchanged.  Otherwise the
category row is removed.  Returns (error message if any, categories,
transactions) after the request. -/
def deleteCategory (cats : List Category) (txns : List Transaction) (cid : Nat) :
    Option String × List Category × List Transaction :=
  if txns.any (fun t => t.category == some cid) then
    (some protectedDeleteMessage, cats, txns)
  else
    (none, cats.filter (fun c => c.id ≠ cid), txns)

/-! ### Calendar lemmas: the successor/predecessor structure of valid dates
and the day-count embedding -/

theorem isLeap_eq (y : Nat) :
    isLeap y = true ↔ (y % 4 = 0 ∧ y % 100 ≠ 0) ∨ y % 400 = 0 := by
  simp [isLeap, Bool.or_eq_true, Bool.and_eq_true]

theorem daysInMonth_bounds (y m : Nat) :
    28 ≤ daysInMonth y m ∧ daysInMonth y m ≤ 31 := by
  unfold daysInMonth
  split_ifs <;> omega

theorem Date.succ_valid (d : Date) (hd : d.Valid) : d.succ.Valid := by
  obtain ⟨y, m, dd⟩ := d
  obtain ⟨hy, hm1, hm2, hd1, hd2⟩ := hd
  have h1 := daysInMonth_bounds y (m + 1)
  have h2 := daysInMonth_bounds (y + 1) 1
  unfold Date.succ
  dsimp only at *
  split_ifs <;> (refine ⟨?_, ?_, ?_, ?_, ?_⟩ <;> simp [Date.Valid] <;> omega)

theorem Date.toOrdinal_succ_mid (y m dd : Nat) (h : 1 ≤ dd) :
    (Date.mk y m (dd + 1)).toOrdinal = (Date.mk y m dd).toOrdinal + 1 := by
  by_cases hm : m ≤ 2 <;> simp [Date.toOrdinal, hm] <;> omega

theorem toOrdinal_eq (y m dd : Nat) :
    (Date.mk y m dd).toOrdinal
      = yearDays (if m ≤ 2 then y - 1 else y) + monthOffset m + dd - 1 := rfl

theorem yearDays_succ (z : Nat) :
    yearDays (z + 1) = yearDays z + (if isLeap (z + 1) then 366 else 365) := by
  have hq : (z + 1) % 100 = 0 → (z + 1) % 4 = 0 := by omega
  have hq2 : (z + 1) % 400 = 0 → (z + 1) % 100 = 0 := by omega
  by_cases hL : isLeap (z + 1) = true
  · rw [hL, if_pos rfl]
    rcases (isLeap_eq (z + 1)).mp hL with ⟨h4, h100⟩ | h400
    · have s4 : (z + 1) / 4 = z / 4 + 1 := Nat.succ_div_of_dvd (by omega)
      have s100 : (z + 1) / 100 = z / 100 := Nat.succ_div_of_not_dvd (by omega)
      have s400 : (z + 1) / 400 = z / 400 := Nat.succ_div_of_not_dvd (by omega)
      unfold yearDays
      rw [s4, s100, s400]
      omega
    · have h100 : (z + 1) % 100 = 0 := hq2 h400
      have h4 : (z + 1) % 4 = 0 := hq h100
      have s4 : (z + 1) / 4 = z / 4 + 1 := Nat.succ_div_of_dvd (by omega)
      have s100 : (z + 1) / 100 = z / 100 + 1 := Nat.succ_div_of_dvd (by omega)
      have s400 : (z + 1) / 400 = z / 400 + 1 := Nat.succ_div_of_dvd (by omega)
      unfold yearDays
      rw [s4, s100, s400]
      omega
  · have hLf : isLeap (z + 1) = false := by revert hL; cases isLeap (z + 1) <;> simp
    rw [hLf, if_neg Bool.false_ne_true]
    have h1 : ¬((z + 1) % 4 = 0 ∧ (z + 1) % 100 ≠ 0) :=
      fun hc => hL ((isLeap_eq (z + 1)).mpr (Or.inl hc))
    have h400 : ¬(z + 1) % 400 = 0 :=
      fun hc => hL ((isLeap_eq (z + 1)).mpr (Or.inr hc))
    by_cases h4 : (z + 1) % 4 = 0
    · have h100 : (z + 1) % 100 = 0 := by
        by_contra hc
        exact h1 ⟨h4, hc⟩
      have s4 : (z + 1) / 4 = z / 4 + 1 := Nat.succ_div_of_dvd (by omega)
      have s100 : (z + 1) / 100 = z / 100 + 1 := Nat.succ_div_of_dvd (by omega)
      have s400 : (z + 1) / 400 = z / 400 := Nat.succ_div_of_not_dvd (by omega)
      unfold yearDays
      rw [s4, s100, s400]
      omega
    · have h100 : ¬(z + 1) % 100 = 0 := fun hc => h4 (hq hc)
      have s4 : (z + 1) / 4 = z / 4 := Nat.succ_div_of_not_dvd (by omega)
      have s100 : (z + 1) / 100 = z / 100 := Nat.succ_div_of_not_dvd (by omega)
      have s400 : (z + 1) / 400 = z / 400 := Nat.succ_div_of_not_dvd (by omega)
      unfold yearDays
      rw [s4, s100, s400]
      omega

theorem Date.toOrdinal_succ_feb (y : Nat) (hy : 1 ≤ y) :
    (Date.succ ⟨y, 2, daysInMonth y 2⟩).toOrdinal
      = (Date.mk y 2 (daysInMonth y 2)).toOrdinal + 1 := by
  obtain ⟨z, rfl⟩ : ∃ z, y = z + 1 := ⟨y - 1, by omega⟩
  have hstep := yearDays_succ z
  have h0 : daysInMonth (z + 1) 2 = if isLeap (z + 1) then 29 else 28 := rfl
  by_cases hL : isLeap (z + 1) = true
  · have h : daysInMonth (z + 1) 2 = 29 := by rw [h0, hL, if_pos rfl]
    rw [h]
    have hs : Date.succ ⟨z + 1, 2, 29⟩ = ⟨z + 1, 3, 1⟩ := by
      unfold Date.succ; rw [h]; rfl
    rw [hs, toOrdinal_eq, toOrdinal_eq]
    rw [hL, if_pos rfl] at hstep
    rw [if_neg (show ¬((3:Nat) ≤ 2) by omega), if_pos (show (2:Nat) ≤ 2 by omega)]
    simp only [Nat.add_sub_cancel]
    rw [show monthOffset 3 = 0 from rfl, show monthOffset 2 = 337 from rfl]
    omega
  · have hLf : isLeap (z + 1) = false := by revert hL; cases isLeap (z + 1) <;> simp
    have h : daysInMonth (z + 1) 2 = 28 := by rw [h0, hLf, if_neg Bool.false_ne_true]
    rw [h]
    have hs : Date.succ ⟨z + 1, 2, 28⟩ = ⟨z + 1, 3, 1⟩ := by
      unfold Date.succ; rw [h]; rfl
    rw [hs, toOrdinal_eq, toOrdinal_eq]
    rw [hLf, if_neg Bool.false_ne_true] at hstep
    rw [if_neg (show ¬((3:Nat) ≤ 2) by omega), if_pos (show (2:Nat) ≤ 2 by omega)]
    simp only [Nat.add_sub_cancel]
    rw [show monthOffset 3 = 0 from rfl, show monthOffset 2 = 337 from rfl]
    omega

set_option maxHeartbeats 2000000 in
theorem Date.toOrdinal_succ_boundary (y m : Nat) (hy : 1 ≤ y) (hm1 : 1 ≤ m) (hm2 : m ≤ 12) :
    (Date.succ ⟨y, m, daysInMonth y m⟩).toOrdinal
      = (Date.mk y m (daysInMonth y m)).toOrdinal + 1 := by
  interval_cases m

  · rw [show daysInMonth y 1 = 31 from rfl,
        show Date.succ ⟨y, 1, 31⟩ = ⟨y, 2, 1⟩ from rfl]
    simp only [toOrdinal_eq, monthOffset, Nat.add_sub_cancel]
    split_ifs <;> omega
  · exact Date.toOrdinal_succ_feb y hy
  · rw [show daysInMonth y 3 = 31 from rfl,
        show Date.succ ⟨y, 3, 31⟩ = ⟨y, 4, 1⟩ from rfl]
    simp only [toOrdinal_eq, monthOffset, Nat.add_sub_cancel]
    split_ifs <;> omega
  · rw [show daysInMonth y 4 = 30 from rfl,
        show Date.succ ⟨y, 4, 30⟩ = ⟨y, 5, 1⟩ from rfl]
    simp only [toOrdinal_eq, monthOffset, Nat.add_sub_cancel]
    split_ifs <;> omega
  · rw [show daysInMonth y 5 = 31 from rfl,
        show Date.succ ⟨y, 5, 31⟩ = ⟨y, 6, 1⟩ from rfl]
    simp only [toOrdinal_eq, monthOffset, Nat.add_sub_cancel]
    split_ifs <;> omega
  · rw [show daysInMonth y 6 = 30 from rfl,
        show Date.succ ⟨y, 6, 30⟩ = ⟨y, 7, 1⟩ from rfl]
    simp only [toOrdinal_eq, monthOffset, Nat.add_sub_cancel]
    split_ifs <;> omega
  · rw [show daysInMonth y 7 = 31 from rfl,
        show Date.succ ⟨y, 7, 31⟩ = ⟨y, 8, 1⟩ from rfl]
    simp only [toOrdinal_eq, monthOffset, Nat.add_sub_cancel]
    split_ifs <;> omega
  · rw [show daysInMonth y 8 = 31 from rfl,
        show Date.succ ⟨y, 8, 31⟩ = ⟨y, 9, 1⟩ from rfl]
    simp only [toOrdinal_eq, monthOffset, Nat.add_sub_cancel]
    split_ifs <;> omega
  · rw [show daysInMonth y 9 = 30 from rfl,
        show Date.succ ⟨y, 9, 30⟩ = ⟨y, 10, 1⟩ from rfl]
    simp only [toOrdinal_eq, monthOffset, Nat.add_sub_cancel]
    split_ifs <;> omega
  · rw [show daysInMonth y 10 = 31 from rfl,
        show Date.succ ⟨y, 10, 31⟩ = ⟨y, 11, 1⟩ from rfl]
    simp only [toOrdinal_eq, monthOffset, Nat.add_sub_cancel]
    split_ifs <;> omega
  · rw [show daysInMonth y 11 = 30 from rfl,
        show Date.succ ⟨y, 11, 30⟩ = ⟨y, 12, 1⟩ from rfl]
    simp only [toOrdinal_eq, monthOffset, Nat.add_sub_cancel]
    split_ifs <;> omega
  · rw [show daysInMonth y 12 = 31 from rfl,
        show Date.succ ⟨y, 12, 31⟩ = ⟨y + 1, 1, 1⟩ from rfl]
    simp only [toOrdinal_eq, monthOffset, Nat.add_sub_cancel]
    split_ifs <;> omega


theorem Date.toOrdinal_succ (d : Date) (hd : d.Valid) :
    d.succ.Valid ∧ d.succ.toOrdinal = d.toOrdinal + 1 := by
  refine ⟨Date.succ_valid d hd, ?_⟩
  obtain ⟨y, m, dd⟩ := d
  obtain ⟨hy, hm1, hm2, hd1, hd2⟩ := hd
  dsimp only at *
  rcases Nat.lt_or_ge dd (daysInMonth y m) with hlt | hge
  · have hs : Date.succ ⟨y, m, dd⟩ = ⟨y, m, dd + 1⟩ := by
      unfold Date.succ; dsimp only; rw [if_pos hlt]
    rw [hs]
    exact Date.toOrdinal_succ_mid y m dd hd1
  · have hdd : dd = daysInMonth y m := by omega
    subst hdd
    exact Date.toOrdinal_succ_boundary y m hy hm1 hm2

theorem Date.pred_spec (d : Date) (hd : d.Valid) (hne : d ≠ ⟨1, 1, 1⟩) :
    d.pred.Valid ∧ d.pred.succ = d ∧ d.pred.toOrdinal + 1 = d.toOrdinal := by
  have hmain : d.pred.Valid ∧ d.pred.succ = d := by
    obtain ⟨y, m, dd⟩ := d
    obtain ⟨hy, hm1, hm2, hd1, hd2⟩ := hd
    dsimp only at *
    unfold Date.pred
    dsimp only
    split_ifs with h1 h2
    · refine ⟨?_, ?_⟩
      · exact ⟨hy, hm1, hm2, show 1 ≤ dd - 1 by omega,
          show dd - 1 ≤ daysInMonth y m by omega⟩
      · unfold Date.succ
        dsimp only
        rw [if_pos (show dd - 1 < daysInMonth y m by omega)]
        simp [Date.mk.injEq] <;> omega
    · have hb := daysInMonth_bounds y (m - 1)
      refine ⟨?_, ?_⟩
      · exact ⟨hy, show 1 ≤ m - 1 by omega, show m - 1 ≤ 12 by omega,
          show 1 ≤ daysInMonth y (m - 1) by omega,
          show daysInMonth y (m - 1) ≤ daysInMonth y (m - 1) by omega⟩
      · unfold Date.succ
        dsimp only
        rw [if_neg (show ¬(daysInMonth y (m - 1) < daysInMonth y (m - 1)) by omega),
          if_pos (show m - 1 < 12 by omega)]
        simp [Date.mk.injEq] <;> omega
    · have hy2 : 2 ≤ y := by
        rcases Nat.lt_or_ge y 2 with h | h
        · exfalso
          apply hne
          have h3 : y = 1 := by omega
          have h4 : m = 1 := by omega
          have h5 : dd = 1 := by omega
          rw [h3, h4, h5]
        · exact h
      have h31 : daysInMonth (y - 1) 12 = 31 := rfl
      refine ⟨?_, ?_⟩
      · exact ⟨show 1 ≤ y - 1 by omega, show (1 : Nat) ≤ 12 by omega,
          show (12 : Nat) ≤ 12 by omega, show (1 : Nat) ≤ 31 by omega,
          show (31 : Nat) ≤ daysInMonth (y - 1) 12 by omega⟩
      · unfold Date.succ
        dsimp only
        rw [if_neg (show ¬(31 < daysInMonth (y - 1) 12) by omega),
          if_neg (show ¬((12 : Nat) < 12) by omega)]
        simp [Date.mk.injEq] <;> omega
  refine ⟨hmain.1, hmain.2, ?_⟩
  have hs := Date.toOrdinal_succ d.pred hmain.1
  rw [hmain.2] at hs
  omega

theorem Date.toOrdinal_base : (Date.mk 1 1 1).toOrdinal = 306 := rfl

theorem Date.toOrdinal_ge (d : Date) (hd : d.Valid) : 306 ≤ d.toOrdinal := by
  obtain ⟨y, m, dd⟩ := d
  obtain ⟨hy, hm1, hm2, hd1, hd2⟩ := hd
  dsimp only at *
  rw [toOrdinal_eq]
  by_cases hm : m ≤ 2
  · rw [if_pos hm]
    have hmv : m = 1 ∨ m = 2 := by omega
    have hoff : monthOffset m = 306 ∨ monthOffset m = 337 := by
      rcases hmv with h | h <;> rw [h]
      · exact Or.inl rfl
      · exact Or.inr rfl
    omega
  · rw [if_neg hm]
    have h365 : 365 ≤ yearDays y := by
      have hdd : y / 100 ≤ y / 4 := Nat.div_le_div_left (by omega) (by omega)
      unfold yearDays
      omega
    omega

theorem Date.addDays_spec (d : Date) (hd : d.Valid) (n : Nat) :
    (d.addDays n).Valid ∧ (d.addDays n).toOrdinal = d.toOrdinal + n := by
  induction n with
  | zero => exact ⟨hd, rfl⟩
  | succ k ih =>
    have hs := Date.toOrdinal_succ (d.addDays k) ih.1
    refine ⟨hs.1, ?_⟩
    rw [show d.addDays (k + 1) = (d.addDays k).succ from rfl, hs.2, ih.2]
    omega

theorem Date.subDays_spec (d : Date) (hd : d.Valid) (n : Nat)
    (hn : 306 + n ≤ d.toOrdinal) :
    (d.subDays n).Valid ∧ (d.subDays n).toOrdinal = d.toOrdinal - n := by
  induction n with
  | zero => exact ⟨hd, rfl⟩
  | succ k ih =>
    obtain ⟨ihv, iho⟩ := ih (by omega)
    have hne : d.subDays k ≠ ⟨1, 1, 1⟩ := by
      intro he
      rw [he, Date.toOrdinal_base] at iho
      omega
    have hp := Date.pred_spec (d.subDays k) ihv hne
    refine ⟨hp.1, ?_⟩
    rw [show d.subDays (k + 1) = (d.subDays k).pred from rfl]
    omega

theorem Date.toOrdinal_inj : ∀ (n : Nat) (a b : Date), a.Valid → b.Valid →
    a.toOrdinal = n → b.toOrdinal = n → a = b := by
  intro n
  induction n using Nat.strong_induction_on with
  | _ n ih =>
    intro a b ha hb han hbn
    by_cases hA : a = ⟨1, 1, 1⟩
    · by_cases hB : b = ⟨1, 1, 1⟩
      · rw [hA, hB]
      · exfalso
        have hp := Date.pred_spec b hb hB
        have h1 := Date.toOrdinal_ge b.pred hp.1
        rw [hA, Date.toOrdinal_base] at han
        omega
    · by_cases hB : b = ⟨1, 1, 1⟩
      · exfalso
        have hp := Date.pred_spec a ha hA
        have h1 := Date.toOrdinal_ge a.pred hp.1
        rw [hB, Date.toOrdinal_base] at hbn
        omega
      · have hpa := Date.pred_spec a ha hA
        have hpb := Date.pred_spec b hb hB
        have hga := Date.toOrdinal_ge a ha
        have heq : a.pred.toOrdinal = n - 1 := by omega
        have heq2 : b.pred.toOrdinal = n - 1 := by omega
        have hee := ih (n - 1) (by omega) a.pred b.pred hpa.1 hpb.1 heq heq2
        calc a = a.pred.succ := hpa.2.1.symm
        _ = b.pred.succ := by rw [hee]
        _ = b := hpb.2.1

/-! ### Lemmas about the weekly anchor iteration -/

theorem mondayOnOrBefore_spec (d : Date) (hd : d.Valid) :
    (mondayOnOrBefore d).Valid ∧
      (mondayOnOrBefore d).toOrdinal = d.toOrdinal - (d.toOrdinal + 2) % 7 := by
  have hge := Date.toOrdinal_ge d hd
  have hk : d.isoweekday - 1 = (d.toOrdinal + 2) % 7 := by
    unfold Date.isoweekday; omega
  have hb : 306 + (d.isoweekday - 1) ≤ d.toOrdinal := by
    rw [hk]; omega
  have hs := Date.subDays_spec d hd (d.isoweekday - 1) hb
  refine ⟨hs.1, ?_⟩
  rw [show mondayOnOrBefore d = d.subDays (d.isoweekday - 1) from rfl, hs.2, hk]

theorem mondayOnOrBefore_isoweekday (d : Date) (hd : d.Valid) :
    (mondayOnOrBefore d).isoweekday = 1 := by
  have h := mondayOnOrBefore_spec d hd
  have hge := Date.toOrdinal_ge d hd
  unfold Date.isoweekday
  rw [h.2]
  omega

theorem iterWeekly_elements : ∀ (fuel : Nat) (cur e a : Date), cur.Valid →
    a ∈ iterWeekly fuel cur e →
    a.Valid ∧ cur.toOrdinal ≤ a.toOrdinal ∧ a.toOrdinal ≤ e.toOrdinal ∧
      (a.toOrdinal + 2) % 7 = (cur.toOrdinal + 2) % 7 := by
  intro fuel
  induction fuel with
  | zero =>
    intro cur e a _ h
    simp [iterWeekly] at h
  | succ k ih =>
    intro cur e a hv h
    simp only [iterWeekly] at h
    split_ifs at h with hc
    · rcases List.mem_cons.mp h with rfl | h
      · exact ⟨hv, Nat.le_refl _, hc, rfl⟩
      · have ha := Date.addDays_spec cur hv 7
        have hel := ih (cur.addDays 7) e a ha.1 h
        refine ⟨hel.1, by omega, hel.2.2.1, by omega⟩
    · simp at h

theorem iterWeekly_complete : ∀ (k fuel : Nat) (cur e target : Date), cur.Valid →
    target.Valid → target.toOrdinal = cur.toOrdinal + 7 * k →
    target.toOrdinal ≤ e.toOrdinal → e.toOrdinal + 1 ≤ fuel + cur.toOrdinal →
    target ∈ iterWeekly fuel cur e := by
  intro k
  induction k with
  | zero =>
    intro fuel cur e target hv hvt hord hle hfuel
    have heq : target = cur :=
      Date.toOrdinal_inj cur.toOrdinal target cur hvt hv (by omega) rfl
    subst heq
    cases fuel with
    | zero => exfalso; omega
    | succ f =>
      simp only [iterWeekly]
      rw [if_pos (by omega)]
      exact List.mem_cons_self _ _
  | succ j ih =>
    intro fuel cur e target hv hvt hord hle hfuel
    have hcur_le : cur.toOrdinal ≤ e.toOrdinal := by omega
    cases fuel with
    | zero => exfalso; omega
    | succ f =>
      simp only [iterWeekly]
      rw [if_pos hcur_le]
      have ha := Date.addDays_spec cur hv 7
      refine List.mem_cons_of_mem _ (ih f (cur.addDays 7) e target ha.1 hvt ?_ hle ?_)
      · rw [ha.2]; omega
      · rw [ha.2]; omega

theorem iterWeekly_sorted : ∀ (fuel : Nat) (cur e : Date), cur.Valid →
    List.Pairwise (fun a b => a.toOrdinal < b.toOrdinal) (iterWeekly fuel cur e) := by
  intro fuel
  induction fuel with
  | zero =>
    intro cur e _
    simp [iterWeekly]
  | succ k ih =>
    intro cur e hv
    simp only [iterWeekly]
    split_ifs with hc
    · have ha := Date.addDays_spec cur hv 7
      refine List.Pairwise.cons ?_ (ih (cur.addDays 7) e ha.1)
      intro b hb
      have hel := iterWeekly_elements k (cur.addDays 7) e b ha.1 hb
      omega
    · exact List.Pairwise.nil

theorem iterWeekly_head (fuel : Nat) (cur e h : Date)
    (hh : (iterWeekly fuel cur e).head? = some h) : h = cur := by
  cases fuel with
  | zero => simp [iterWeekly] at hh
  | succ k =>
    simp only [iterWeekly] at hh
    split_ifs at hh with hc
    · rw [List.head?_cons] at hh
      exact (Option.some.inj hh).symm
    · rw [List.head?_nil] at hh
      exact absurd hh (by simp)

theorem iterWeekly_chain : ∀ (fuel : Nat) (cur e : Date), cur.Valid →
    List.Chain' (fun a b => b.toOrdinal = a.toOrdinal + 7) (iterWeekly fuel cur e) := by
  intro fuel
  induction fuel with
  | zero =>
    intro cur e _
    simp [iterWeekly]
  | succ k ih =>
    intro cur e hv
    simp only [iterWeekly]
    split_ifs with hc
    · have ha := Date.addDays_spec cur hv 7
      refine List.chain'_cons'.mpr ⟨?_, ih (cur.addDays 7) e ha.1⟩
      intro b hb
      rw [iterWeekly_head k (cur.addDays 7) e b hb]
      omega
    · exact List.chain'_nil

/-! ### Lemmas about the monthly anchor iteration -/

theorem monthIdx_mk (y m d : Nat) : monthIdx ⟨y, m, d⟩ = 12 * y + m := rfl

theorem monthStep_eq_succ (y m : Nat) (hm1 : 1 ≤ m) (hm2 : m ≤ 12) :
    monthStep ⟨y, m, 1⟩ = Date.succ ⟨y, m, daysInMonth y m⟩ := by
  unfold monthStep Date.succ
  dsimp only
  rw [if_neg (show ¬(daysInMonth y m < daysInMonth y m) by omega)]
  by_cases h12 : m = 12
  · rw [if_pos h12, if_neg (show ¬(m < 12) by omega)]
  · rw [if_neg h12, if_pos (show m < 12 by omega)]

theorem monthStep_spec (cur : Date) (hv : cur.Valid) (h1 : cur.day = 1) :
    (monthStep cur).Valid ∧ (monthStep cur).day = 1 ∧
      monthIdx (monthStep cur) = monthIdx cur + 1 ∧
      cur.toOrdinal < (monthStep cur).toOrdinal := by
  obtain ⟨y, m, dd⟩ := cur
  obtain ⟨hy, hm1, hm2, hd1, hd2⟩ := hv
  dsimp only at *
  subst h1
  have hb := daysInMonth_bounds y m
  have hvlast : (Date.mk y m (daysInMonth y m)).Valid :=
    ⟨hy, hm1, hm2, show 1 ≤ daysInMonth y m by omega, Nat.le_refl _⟩
  have hms := monthStep_eq_succ y m hm1 hm2
  have hsv := Date.succ_valid _ hvlast
  have hso := Date.toOrdinal_succ_boundary y m hy hm1 hm2
  refine ⟨by rw [hms]; exact hsv, ?_, ?_, ?_⟩
  · unfold monthStep
    dsimp only
    split_ifs <;> rfl
  · unfold monthStep
    dsimp only
    split_ifs with h12
    · simp only [monthIdx_mk]
      omega
    · simp only [monthIdx_mk]
      omega
  · rw [hms, hso]
    have o1 := toOrdinal_eq y m 1
    have o2 := toOrdinal_eq y m (daysInMonth y m)
    by_cases hm : m ≤ 2
    · rw [if_pos hm] at o1 o2; omega
    · rw [if_neg hm] at o1 o2; omega

theorem monthFirst_spec (d : Date) (hd : d.Valid) :
    (monthFirst d).Valid ∧ (monthFirst d).day = 1 ∧
      (monthFirst d).toOrdinal ≤ d.toOrdinal ∧
      monthIdx (monthFirst d) = monthIdx d ∧
      d.toOrdinal < (monthStep (monthFirst d)).toOrdinal := by
  obtain ⟨y, m, dd⟩ := d
  obtain ⟨hy, hm1, hm2, hd1, hd2⟩ := hd
  dsimp only at *
  have hb := daysInMonth_bounds y m
  have hmf : monthFirst ⟨y, m, dd⟩ = Date.mk y m 1 := rfl
  have hvf : (Date.mk y m 1).Valid :=
    ⟨hy, hm1, hm2, Nat.le_refl _, show 1 ≤ daysInMonth y m by omega⟩
  have o1 := toOrdinal_eq y m 1
  have o2 := toOrdinal_eq y m dd
  have olast := toOrdinal_eq y m (daysInMonth y m)
  have hms := monthStep_eq_succ y m hm1 hm2
  have hso := Date.toOrdinal_succ_boundary y m hy hm1 hm2
  rw [hmf]
  refine ⟨hvf, rfl, ?_, ?_, ?_⟩
  · by_cases hm : m ≤ 2
    · rw [if_pos hm] at o1 o2; omega
    · rw [if_neg hm] at o1 o2; omega
  · simp only [monthIdx_mk]
  · rw [hms, hso]
    by_cases hm : m ≤ 2
    · rw [if_pos hm] at o2 olast; omega
    · rw [if_neg hm] at o2 olast; omega

theorem monthIdx_le_ord : ∀ (k : Nat) (a b : Date), a.Valid → b.Valid →
    a.day = 1 → b.day = 1 → monthIdx b = monthIdx a + k →
    a.toOrdinal ≤ b.toOrdinal := by
  intro k
  induction k with
  | zero =>
    intro a b ha hb h1 h2 hidx
    obtain ⟨ya, ma, da⟩ := a
    obtain ⟨yb, mb, db⟩ := b
    obtain ⟨_, hma1, hma2, _, _⟩ := ha
    obtain ⟨_, hmb1, hmb2, _, _⟩ := hb
    dsimp only at h1 h2 hma1 hma2 hmb1 hmb2
    subst h1
    subst h2
    simp only [monthIdx_mk] at hidx
    have hy : ya = yb := by omega
    have hm : ma = mb := by omega
    rw [hy, hm]
  | succ j ih =>
    intro a b ha hb h1 h2 hidx
    have hs := monthStep_spec a ha h1
    have hrest := ih (monthStep a) b hs.1 hb hs.2.1 h2 (by omega)
    omega

theorem ord_le_monthIdx_le (a b : Date) (ha : a.Valid) (hb : b.Valid)
    (h : a.toOrdinal ≤ b.toOrdinal) : monthIdx a ≤ monthIdx b := by
  by_contra hc
  push_neg at hc
  have hfb := monthFirst_spec b hb
  have hfa := monthFirst_spec a ha
  have hstep := monthStep_spec (monthFirst b) hfb.1 hfb.2.1
  have hle := monthIdx_le_ord (monthIdx (monthFirst a) - monthIdx (monthStep (monthFirst b)))
    (monthStep (monthFirst b)) (monthFirst a) hstep.1 hfa.1 hstep.2.1 hfa.2.1 (by omega)
  omega

theorem iterMonthly_elements : ∀ (fuel : Nat) (cur e a : Date), cur.Valid → cur.day = 1 →
    a ∈ iterMonthly fuel cur e →
    a.Valid ∧ a.day = 1 ∧ cur.toOrdinal ≤ a.toOrdinal ∧ a.toOrdinal ≤ e.toOrdinal ∧
      monthIdx cur ≤ monthIdx a := by
  intro fuel
  induction fuel with
  | zero =>
    intro cur e a _ _ h
    simp [iterMonthly] at h
  | succ k ih =>
    intro cur e a hv h1 h
    simp only [iterMonthly] at h
    split_ifs at h with hc
    · rcases List.mem_cons.mp h with rfl | h
      · exact ⟨hv, h1, Nat.le_refl _, hc, Nat.le_refl _⟩
      · have hs := monthStep_spec cur hv h1
        have hel := ih (monthStep cur) e a hs.1 hs.2.1 h
        exact ⟨hel.1, hel.2.1, by omega, hel.2.2.2.1, by omega⟩
    · simp at h

theorem iterMonthly_complete : ∀ (k fuel : Nat) (cur e target : Date), cur.Valid →
    cur.day = 1 → target.Valid → target.day = 1 →
    monthIdx target = monthIdx cur + k →
    target.toOrdinal ≤ e.toOrdinal → e.toOrdinal + 1 ≤ fuel + cur.toOrdinal →
    target ∈ iterMonthly fuel cur e := by
  intro k
  induction k with
  | zero =>
    intro fuel cur e target hv h1 hvt h1t hidx hle hfuel
    have heq : target = cur := by
      obtain ⟨ya, ma, da⟩ := cur
      obtain ⟨yb, mb, db⟩ := target
      obtain ⟨_, hma1, hma2, _, _⟩ := hv
      obtain ⟨_, hmb1, hmb2, _, _⟩ := hvt
      dsimp only at h1 h1t hma1 hma2 hmb1 hmb2
      subst h1
      subst h1t
      simp only [monthIdx_mk] at hidx
      have hy : yb = ya := by omega
      have hm : mb = ma := by omega
      rw [hy, hm]
    subst heq
    cases fuel with
    | zero => exfalso; omega
    | succ f =>
      simp only [iterMonthly]
      rw [if_pos (by omega)]
      exact List.mem_cons_self _ _
  | succ j ih =>
    intro fuel cur e target hv h1 hvt h1t hidx hle hfuel
    have hcur_le : cur.toOrdinal ≤ target.toOrdinal :=
      monthIdx_le_ord (j + 1) cur target hv hvt h1 h1t hidx
    cases fuel with
    | zero => exfalso; omega
    | succ f =>
      simp only [iterMonthly]
      rw [if_pos (by omega)]
      have hs := monthStep_spec cur hv h1
      refine List.mem_cons_of_mem _ (ih f (monthStep cur) e target hs.1 hs.2.1 hvt h1t ?_ hle ?_)
      · omega
      · omega

theorem iterMonthly_sorted : ∀ (fuel : Nat) (cur e : Date), cur.Valid → cur.day = 1 →
    List.Pairwise (fun a b => a.toOrdinal < b.toOrdinal) (iterMonthly fuel cur e) := by
  intro fuel
  induction fuel with
  | zero =>
    intro cur e _ _
    simp [iterMonthly]
  | succ k ih =>
    intro cur e hv h1
    simp only [iterMonthly]
    split_ifs with hc
    · have hs := monthStep_spec cur hv h1
      refine List.Pairwise.cons ?_ (ih (monthStep cur) e hs.1 hs.2.1)
      intro b hb
      have hel := iterMonthly_elements k (monthStep cur) e b hs.1 hs.2.1 hb
      omega
    · exact List.Pairwise.nil

theorem iterMonthly_head (fuel : Nat) (cur e h : Date)
    (hh : (iterMonthly fuel cur e).head? = some h) : h = cur := by
  cases fuel with
  | zero => simp [iterMonthly] at hh
  | succ k =>
    simp only [iterMonthly] at hh
    split_ifs at hh with hc
    · rw [List.head?_cons] at hh
      exact (Option.some.inj hh).symm
    · rw [List.head?_nil] at hh
      exact absurd hh (by simp)

theorem iterMonthly_chain : ∀ (fuel : Nat) (cur e : Date), cur.Valid → cur.day = 1 →
    List.Chain' (fun a b => b = monthStep a) (iterMonthly fuel cur e) := by
  intro fuel
  induction fuel with
  | zero =>
    intro cur e _ _
    simp [iterMonthly]
  | succ k ih =>
    intro cur e hv h1
    simp only [iterMonthly]
    split_ifs with hc
    · have hs := monthStep_spec cur hv h1
      refine List.chain'_cons'.mpr ⟨?_, ih (monthStep cur) e hs.1 hs.2.1⟩
      intro b hb
      exact iterMonthly_head k (monthStep cur) e b hb
    · exact List.chain'_nil

/-! ### Claim C1 -/

/-- C1: for every pair of valid dates (swapped first when reversed) and
every bucket in weekly/monthly, `_iter_periods` yields a finite (it is a
list), strictly increasing anchor sequence whose first anchor is the
Monday on or before the earlier endpoint (weekly) or the first of its
month (monthly), which steps by exactly 7 days (weekly) or to the first of
the next month including the December rollover (monthly), and which
contains every such anchor up to the later endpoint with no gaps. -/
theorem c1_iter_periods (start e : Date) (b : String)
    (hs : start.Valid) (he : e.Valid) :
    (∀ a ∈ iterPeriods start e b, a.Valid ∧
        a.toOrdinal ≤ (if start.toOrdinal ≤ e.toOrdinal then e else start).toOrdinal) ∧
    List.Pairwise (fun a a' => a.toOrdinal < a'.toOrdinal) (iterPeriods start e b) ∧
    (b = "weekly" →
      (iterPeriods start e b).head? =
          some (mondayOnOrBefore (if start.toOrdinal ≤ e.toOrdinal then start else e)) ∧
      (∀ a ∈ iterPeriods start e b, a.isoweekday = 1) ∧
      (mondayOnOrBefore (if start.toOrdinal ≤ e.toOrdinal then start else e)).toOrdinal ≤
          (if start.toOrdinal ≤ e.toOrdinal then start else e).toOrdinal ∧
      (if start.toOrdinal ≤ e.toOrdinal then start else e).toOrdinal <
          (mondayOnOrBefore (if start.toOrdinal ≤ e.toOrdinal then start else e)).toOrdinal + 7 ∧
      List.Chain' (fun a a' => a'.toOrdinal = a.toOrdinal + 7) (iterPeriods start e b) ∧
      (∀ a : Date, a.Valid → a.isoweekday = 1 →
        (mondayOnOrBefore (if start.toOrdinal ≤ e.toOrdinal then start else e)).toOrdinal ≤
            a.toOrdinal →
        a.toOrdinal ≤ (if start.toOrdinal ≤ e.toOrdinal then e else start).toOrdinal →
        a ∈ iterPeriods start e b)) ∧
    (b = "monthly" →
      (iterPeriods start e b).head? =
          some (monthFirst (if start.toOrdinal ≤ e.toOrdinal then start else e)) ∧
      (∀ a ∈ iterPeriods start e b, a.day = 1) ∧
      (monthFirst (if start.toOrdinal ≤ e.toOrdinal then start else e)).toOrdinal ≤
          (if start.toOrdinal ≤ e.toOrdinal then start else e).toOrdinal ∧
      List.Chain' (fun a a' => a' = monthStep a) (iterPeriods start e b) ∧
      (∀ a : Date, a.Valid → a.day = 1 →
        monthIdx (monthFirst (if start.toOrdinal ≤ e.toOrdinal then start else e)) ≤
            monthIdx a →
        a.toOrdinal ≤ (if start.toOrdinal ≤ e.toOrdinal then e else start).toOrdinal →
        a ∈ iterPeriods start e b)) := by
  set s0 := (if start.toOrdinal ≤ e.toOrdinal then start else e) with hsdef
  set e0 := (if start.toOrdinal ≤ e.toOrdinal then e else start) with hedef
  have hsv : s0.Valid := by rw [hsdef]; split_ifs <;> assumption
  have hev : e0.Valid := by rw [hedef]; split_ifs <;> assumption
  have hse : s0.toOrdinal ≤ e0.toOrdinal := by
    rw [hsdef, hedef]; split_ifs with h
    · exact h
    · omega
  by_cases hmB : b = "monthly"
  · subst hmB
    have hdef : iterPeriods start e "monthly" =
        iterMonthly (e0.toOrdinal + 1) (monthFirst s0) e0 := by
      simp only [iterPeriods]
      rw [if_pos trivial]
    have hmf := monthFirst_spec s0 hsv
    have hguard : (monthFirst s0).toOrdinal ≤ e0.toOrdinal := by omega
    refine ⟨?_, ?_, ?_, ?_⟩
    · intro a ha
      rw [hdef] at ha
      have hel := iterMonthly_elements _ _ _ _ hmf.1 hmf.2.1 ha
      exact ⟨hel.1, hel.2.2.2.1⟩
    · rw [hdef]
      exact iterMonthly_sorted _ _ _ hmf.1 hmf.2.1
    · intro hW
      exact absurd hW (by decide)
    · intro _
      refine ⟨?_, ?_, by omega, ?_, ?_⟩
      · rw [hdef]
        simp only [iterMonthly]
        rw [if_pos hguard, List.head?_cons]
      · intro a ha
        rw [hdef] at ha
        exact (iterMonthly_elements _ _ _ _ hmf.1 hmf.2.1 ha).2.1
      · rw [hdef]
        exact iterMonthly_chain _ _ _ hmf.1 hmf.2.1
      · intro a hav ha1 hidx hhigh
        rw [hdef]
        exact iterMonthly_complete (monthIdx a - monthIdx (monthFirst s0)) _ _ _ _
          hmf.1 hmf.2.1 hav ha1 (by omega) hhigh (by omega)
  · have hdef : iterPeriods start e b =
        iterWeekly (e0.toOrdinal + 1) (mondayOnOrBefore s0) e0 := by
      simp only [iterPeriods]
      rw [if_neg hmB]
    have hmon := mondayOnOrBefore_spec s0 hsv
    have hs0ge := Date.toOrdinal_ge s0 hsv
    have hwk := mondayOnOrBefore_isoweekday s0 hsv
    have hwk0 : ((mondayOnOrBefore s0).toOrdinal + 2) % 7 = 0 := by
      unfold Date.isoweekday at hwk
      omega
    have hguard : (mondayOnOrBefore s0).toOrdinal ≤ e0.toOrdinal := by omega
    refine ⟨?_, ?_, ?_, ?_⟩
    · intro a ha
      rw [hdef] at ha
      have hel := iterWeekly_elements _ _ _ _ hmon.1 ha
      exact ⟨hel.1, hel.2.2.1⟩
    · rw [hdef]
      exact iterWeekly_sorted _ _ _ hmon.1
    · intro _
      refine ⟨?_, ?_, by omega, by omega, ?_, ?_⟩
      · rw [hdef]
        simp only [iterWeekly]
        rw [if_pos hguard, List.head?_cons]
      · intro a ha
        rw [hdef] at ha
        have hel := iterWeekly_elements _ _ _ _ hmon.1 ha
        unfold Date.isoweekday
        omega
      · rw [hdef]
        exact iterWeekly_chain _ _ _ hmon.1
      · intro a hav haw hlow hhigh
        have haw0 : (a.toOrdinal + 2) % 7 = 0 := by
          unfold Date.isoweekday at haw
          omega
        rw [hdef]
        exact iterWeekly_complete ((a.toOrdinal - (mondayOnOrBefore s0).toOrdinal) / 7)
          _ _ _ _ hmon.1 hav (by omega) hhigh (by omega)
    · intro hM
      exact absurd hM hmB

theorem anchorFor_idem (b : String) (d : Date) (hd : d.Valid) :
    anchorFor b (anchorFor b d) = anchorFor b d := by
  by_cases hw : b = "weekly"
  · subst hw
    have h : anchorFor "weekly" d = mondayOnOrBefore d := rfl
    rw [h]
    have h2 : anchorFor "weekly" (mondayOnOrBefore d) = mondayOnOrBefore (mondayOnOrBefore d) := rfl
    rw [h2]
    have hwk := mondayOnOrBefore_isoweekday d hd
    rw [show mondayOnOrBefore (mondayOnOrBefore d)
        = (mondayOnOrBefore d).subDays ((mondayOnOrBefore d).isoweekday - 1) from rfl, hwk]
    rfl
  · by_cases hm : b = "monthly"
    · subst hm
      have h : anchorFor "monthly" d = monthFirst d := rfl
      rw [h]
      rfl
    · have h : anchorFor b d = d := by
        unfold anchorFor
        rw [if_neg hw, if_neg hm]
      rw [h]
      exact h

theorem anchorFor_mem_iterPeriods (dfrom dto d : Date) (b : String)
    (hf : dfrom.Valid) (ht : dto.Valid) (hd : d.Valid)
    (hb : b = "weekly" ∨ b = "monthly")
    (h1 : dfrom.toOrdinal ≤ d.toOrdinal) (h2 : d.toOrdinal ≤ dto.toOrdinal) :
    anchorFor b d ∈ iterPeriods dfrom dto b := by
  have hc : dfrom.toOrdinal ≤ dto.toOrdinal := Nat.le_trans h1 h2
  rcases hb with rfl | rfl
  · have hdef : iterPeriods dfrom dto "weekly" =
        iterWeekly (dto.toOrdinal + 1) (mondayOnOrBefore dfrom) dto := by
      simp only [iterPeriods]
      rw [if_neg (by decide)]
      simp only [if_pos hc]
    have ha : anchorFor "weekly" d = mondayOnOrBefore d := rfl
    rw [hdef, ha]
    have hmond := mondayOnOrBefore_spec d hd
    have hmonf := mondayOnOrBefore_spec dfrom hf
    have hwkd := mondayOnOrBefore_isoweekday d hd
    have hwkf := mondayOnOrBefore_isoweekday dfrom hf
    have hged := Date.toOrdinal_ge d hd
    have hgef := Date.toOrdinal_ge dfrom hf
    have hwk0d : ((mondayOnOrBefore d).toOrdinal + 2) % 7 = 0 := by
      unfold Date.isoweekday at hwkd
      omega
    have hwk0f : ((mondayOnOrBefore dfrom).toOrdinal + 2) % 7 = 0 := by
      unfold Date.isoweekday at hwkf
      omega
    exact iterWeekly_complete
      (((mondayOnOrBefore d).toOrdinal - (mondayOnOrBefore dfrom).toOrdinal) / 7)
      _ _ _ _ hmonf.1 hmond.1 (by omega) (by omega) (by omega)
  · have hdef : iterPeriods dfrom dto "monthly" =
        iterMonthly (dto.toOrdinal + 1) (monthFirst dfrom) dto := by
      simp only [iterPeriods]
      rw [if_pos trivial]
      simp only [if_pos hc]
    have ha : anchorFor "monthly" d = monthFirst d := rfl
    rw [hdef, ha]
    have hmd := monthFirst_spec d hd
    have hmf := monthFirst_spec dfrom hf
    have hidx : monthIdx dfrom ≤ monthIdx d := ord_le_monthIdx_le dfrom d hf hd h1
    exact iterMonthly_complete (monthIdx (monthFirst d) - monthIdx (monthFirst dfrom))
      _ _ _ _ hmf.1 hmf.2.1 hmd.1 hmd.2.1 (by omega) (by omega) (by omega)

/-- C10: the per-transaction anchor function `_anchor_for` (Monday of the
week for the weekly bucket, first of the month for the monthly bucket) is
idempotent, and the anchor of every date inside the window is an element
of the anchor sequence that `_iter_periods` produces for that window, so
merging the sparse per-anchor sums against the densified timeline drops
no bucketed sum. -/
theorem c10_anchor_for_cover (dfrom dto d : Date) (b : String)
    (hf : dfrom.Valid) (ht : dto.Valid) (hd : d.Valid)
    (hb : b = "weekly" ∨ b = "monthly")
    (h1 : dfrom.toOrdinal ≤ d.toOrdinal) (h2 : d.toOrdinal ≤ dto.toOrdinal) :
    anchorFor b (anchorFor b d) = anchorFor b d ∧
      anchorFor b d ∈ iterPeriods dfrom dto b :=
  ⟨anchorFor_idem b d hd, anchorFor_mem_iterPeriods dfrom dto d b hf ht hd hb h1 h2⟩

/-- Witness for C10 at the concrete window 2025-10-01..2025-10-14 with the
date 2025-10-08 and the weekly bucket. -/
theorem c10_anchor_for_cover_witness :
    (Date.mk 2025 10 1).Valid ∧ (Date.mk 2025 10 14).Valid ∧ (Date.mk 2025 10 8).Valid ∧
    ((Date.mk 2025 10 1).toOrdinal ≤ (Date.mk 2025 10 8).toOrdinal) ∧
    ((Date.mk 2025 10 8).toOrdinal ≤ (Date.mk 2025 10 14).toOrdinal) ∧
    (anchorFor "weekly" (anchorFor "weekly" ⟨2025, 10, 8⟩) = anchorFor "weekly" ⟨2025, 10, 8⟩ ∧
      anchorFor "weekly" ⟨2025, 10, 8⟩ ∈ iterPeriods ⟨2025, 10, 1⟩ ⟨2025, 10, 14⟩ "weekly") :=
  ⟨by decide, by decide, by decide, by decide, by decide,
    c10_anchor_for_cover ⟨2025, 10, 1⟩ ⟨2025, 10, 14⟩ ⟨2025, 10, 8⟩ "weekly"
      (by decide) (by decide) (by decide) (Or.inl rfl) (by decide) (by decide)⟩
theorem foldl_add_shift (f : Transaction → Int) :
    ∀ (ts : List Transaction) (c : Int),
    ts.foldl (fun acc t => acc + f t) c = c + ts.foldl (fun acc t => acc + f t) 0 := by
  intro ts
  induction ts with
  | nil => intro c; simp
  | cons t ts ih =>
    intro c
    simp only [List.foldl_cons]
    rw [ih (c + f t), ih (0 + f t)]
    omega

theorem sumAmounts_nil : sumAmounts [] = 0 := rfl

theorem sumAmounts_cons (t : Transaction) (ts : List Transaction) :
    sumAmounts (t :: ts) = t.amount + sumAmounts ts := by
  unfold sumAmounts
  simp only [List.foldl_cons]
  rw [foldl_add_shift (fun t => t.amount) ts (0 + t.amount)]
  omega

theorem caseSumIncome_eq (ts : List Transaction) :
    caseSumIncome ts = sumAmounts (ts.filter (fun t => t.transaction_type == "Income")) := by
  induction ts with
  | nil => rfl
  | cons t ts ih =>
    unfold caseSumIncome
    simp only [List.foldl_cons]
    rw [foldl_add_shift (fun t => if t.transaction_type = "Income" then t.amount else 0) ts]
    unfold caseSumIncome at ih
    rw [ih, List.filter_cons]
    by_cases h : t.transaction_type = "Income"
    · rw [if_pos h]
      rw [if_pos (show (t.transaction_type == "Income") = true by simp [h])]
      rw [sumAmounts_cons]
      omega
    · rw [if_neg h]
      rw [if_neg (show ¬(t.transaction_type == "Income") = true by simp [h])]
      omega

theorem caseSumExpense_eq (ts : List Transaction) :
    caseSumExpense ts = sumAmounts (ts.filter (fun t => t.transaction_type == "Expense")) := by
  induction ts with
  | nil => rfl
  | cons t ts ih =>
    unfold caseSumExpense
    simp only [List.foldl_cons]
    rw [foldl_add_shift (fun t => if t.transaction_type = "Expense" then t.amount else 0) ts]
    unfold caseSumExpense at ih
    rw [ih, List.filter_cons]
    by_cases h : t.transaction_type = "Expense"
    · rw [if_pos h]
      rw [if_pos (show (t.transaction_type == "Expense") = true by simp [h])]
      rw [sumAmounts_cons]
      omega
    · rw [if_neg h]
      rw [if_neg (show ¬(t.transaction_type == "Expense") = true by simp [h])]
      omega

theorem lookupBucket_nil (x : Date) : lookupBucket [] x = (0, 0) := rfl

theorem lookupBucket_cons (b : Date) (i e : Int) (rest : List (Date × Int × Int)) (x : Date) :
    lookupBucket ((b, i, e) :: rest) x = if b = x then (i, e) else lookupBucket rest x := by
  unfold lookupBucket
  by_cases hbx : b = x
  · rw [List.find?_cons_of_pos _ (by simp [hbx])]
    rw [if_pos hbx]
  · rw [List.find?_cons_of_neg _ (by simp [hbx])]
    rw [if_neg hbx]

theorem lookup_updAssoc (a x : Date) (isInc : Bool) (v : Int) :
    ∀ (m : List (Date × Int × Int)),
    lookupBucket (updAssoc a isInc v m) x =
      (if x = a then
        ((lookupBucket m x).1 + (if isInc then v else 0),
         (lookupBucket m x).2 + (if isInc then 0 else v))
      else lookupBucket m x) := by
  intro m
  induction m with
  | nil =>
    rw [show updAssoc a isInc v []
        = [(a, (if isInc then v else 0), (if isInc then 0 else v))] from rfl]
    rw [lookupBucket_cons, lookupBucket_nil]
    by_cases hx : x = a
    · rw [if_pos hx.symm, if_pos hx]
      simp
    · rw [if_neg (fun h => hx h.symm), if_neg hx]
  | cons p rest ih =>
    obtain ⟨b, i, e⟩ := p
    by_cases hab : a = b
    · subst hab
      unfold updAssoc
      rw [if_pos rfl]
      by_cases hax : a = x
      · subst hax
        simp [lookupBucket_cons]
      · simp only [lookupBucket_cons, if_neg hax, if_neg (fun h : x = a => hax h.symm)]
    · unfold updAssoc
      rw [if_neg hab]
      simp only [lookupBucket_cons]
      by_cases hbx : b = x
      · have hxa : ¬ x = a := fun h => hab (hbx.trans h).symm
        simp only [if_pos hbx, if_neg hxa]
      · simp only [if_neg hbx]
        exact ih

theorem lookup_bucketMapOf_gen (b : String) :
    ∀ (txns : List Transaction) (m : List (Date × Int × Int)) (a : Date),
    lookupBucket (txns.foldl (fun acc t =>
        updAssoc (anchorFor b t.date) (t.transaction_type == "Income") t.amount acc) m) a =
      ((lookupBucket m a).1 + sumAmounts (txns.filter (fun t =>
          t.transaction_type == "Income" && anchorFor b t.date == a)),
       (lookupBucket m a).2 + sumAmounts (txns.filter (fun t =>
          !(t.transaction_type == "Income") && anchorFor b t.date == a))) := by
  intro txns
  induction txns with
  | nil =>
    intro m a
    simp only [List.foldl_nil, List.filter_nil, sumAmounts_nil]
    simp
  | cons t ts ih =>
    intro m a
    simp only [List.foldl_cons, List.filter_cons]
    rw [ih, lookup_updAssoc]
    by_cases hanc : anchorFor b t.date = a
    · have hbeq : (anchorFor b t.date == a) = true := by simp [hanc]
      by_cases hinc : (t.transaction_type == "Income") = true
      · have hv1 : (if (t.transaction_type == "Income") then t.amount else 0) = t.amount := by
          rw [hinc]; rfl
        have hv2 : (if (t.transaction_type == "Income") then 0 else t.amount) = (0 : Int) := by
          rw [hinc]; rfl
        rw [if_pos hanc.symm, hv1, hv2,
          if_pos (show (t.transaction_type == "Income" && (anchorFor b t.date == a)) = true by
            rw [hinc, hbeq]; rfl),
          if_neg (show ¬((!(t.transaction_type == "Income") && (anchorFor b t.date == a)) = true) by
            rw [hinc, hbeq]; simp),
          sumAmounts_cons]
        simp only [Prod.mk.injEq]
        constructor <;> omega
      · have hincf : (t.transaction_type == "Income") = false := by
          revert hinc; cases (t.transaction_type == "Income") <;> simp
        have hv1 : (if (t.transaction_type == "Income") then t.amount else 0) = (0 : Int) := by
          rw [hincf]; rfl
        have hv2 : (if (t.transaction_type == "Income") then 0 else t.amount) = t.amount := by
          rw [hincf]; rfl
        rw [if_pos hanc.symm, hv1, hv2,
          if_neg (show ¬((t.transaction_type == "Income" && (anchorFor b t.date == a)) = true) by
            rw [hincf]; simp),
          if_pos (show (!(t.transaction_type == "Income") && (anchorFor b t.date == a)) = true by
            rw [hincf, hbeq]; rfl),
          sumAmounts_cons]
        simp only [Prod.mk.injEq]
        constructor <;> omega
    · have hbeq : (anchorFor b t.date == a) = false := by simp [hanc]
      rw [if_neg (show ¬(a = anchorFor b t.date) from fun h => hanc h.symm),
        if_neg (show ¬((t.transaction_type == "Income" && (anchorFor b t.date == a)) = true) by
          rw [hbeq]; simp),
        if_neg (show ¬((!(t.transaction_type == "Income") && (anchorFor b t.date == a)) = true) by
          rw [hbeq]; simp)]

theorem lookup_bucketMapOf (b : String) (txns : List Transaction) (a : Date) :
    lookupBucket (bucketMapOf b txns) a =
      (sumAmounts (txns.filter (fun t =>
          t.transaction_type == "Income" && anchorFor b t.date == a)),
       sumAmounts (txns.filter (fun t =>
          !(t.transaction_type == "Income") && anchorFor b t.date == a))) := by
  unfold bucketMapOf
  rw [lookup_bucketMapOf_gen, lookupBucket_nil]
  simp

theorem sum_map_zero (L : List Date) : (L.map (fun _ => (0 : Int))).sum = 0 := by
  apply List.sum_eq_zero
  intro x hx
  rcases List.mem_map.mp hx with ⟨a, _, h⟩
  exact h.symm

theorem sum_map_add (L : List Date) (f g : Date → Int) :
    (L.map (fun a => f a + g a)).sum = (L.map f).sum + (L.map g).sum := by
  induction L with
  | nil => simp
  | cons x L ih =>
    simp only [List.map_cons, List.sum_cons, ih]
    omega

theorem sum_indicator (x : Date) (c : Int) :
    ∀ (L : List Date), L.Pairwise (fun a a' => a ≠ a') → x ∈ L →
    (L.map (fun a => if x = a then c else 0)).sum = c := by
  intro L
  induction L with
  | nil => intro _ h; simp at h
  | cons y L ih =>
    intro hp hx
    simp only [List.map_cons, List.sum_cons]
    rcases List.mem_cons.mp hx with rfl | hx
    · rw [if_pos rfl]
      have hz : (L.map (fun a => if x = a then c else 0)).sum = 0 := by
        apply List.sum_eq_zero
        intro z hz
        rcases List.mem_map.mp hz with ⟨a, ha, hza⟩
        rw [if_neg ((List.pairwise_cons.mp hp).1 a ha)] at hza
        exact hza.symm
      rw [hz]
      omega
    · have hyx : ¬ x = y := fun h => (List.pairwise_cons.mp hp).1 x hx h.symm
      rw [if_neg hyx, ih (List.pairwise_cons.mp hp).2 hx]
      omega

theorem sum_filter_partition (p : Transaction → Bool) (key : Transaction → Date) :
    ∀ (w : List Transaction) (L : List Date), L.Pairwise (fun a a' => a ≠ a') →
    (∀ t ∈ w, p t = true → key t ∈ L) →
    (L.map (fun a => sumAmounts (w.filter (fun t => p t && key t == a)))).sum
      = sumAmounts (w.filter p) := by
  intro w
  induction w with
  | nil =>
    intro L _ _
    simp only [List.filter_nil, sumAmounts_nil]
    exact sum_map_zero L
  | cons t ts ih =>
    intro L hnd hcov
    have hcov' : ∀ u ∈ ts, p u = true → key u ∈ L :=
      fun u hu => hcov u (List.mem_cons_of_mem t hu)
    by_cases hp : p t = true
    · have hmem : key t ∈ L := hcov t (List.mem_cons_self t ts) hp
      have hstep : ∀ a ∈ L,
          sumAmounts ((t :: ts).filter (fun u => p u && key u == a))
            = (if key t = a then t.amount else 0)
              + sumAmounts (ts.filter (fun u => p u && key u == a)) := by
        intro a _
        rw [List.filter_cons]
        by_cases hk : key t = a
        · rw [if_pos (by rw [hp]; simp [hk]), if_pos hk, sumAmounts_cons]
        · rw [if_neg (by rw [hp]; simp [hk]), if_neg hk]
          omega
      rw [List.map_congr_left hstep, sum_map_add,
        sum_indicator (key t) t.amount L hnd hmem, ih L hnd hcov']
      rw [List.filter_cons, if_pos hp, sumAmounts_cons]
    · have hpf : p t = false := by revert hp; cases p t <;> simp
      have hstep : ∀ a ∈ L,
          sumAmounts ((t :: ts).filter (fun u => p u && key u == a))
            = sumAmounts (ts.filter (fun u => p u && key u == a)) := by
        intro a _
        rw [List.filter_cons, if_neg (by rw [hpf]; simp)]
      rw [List.map_congr_left hstep, ih L hnd hcov']
      rw [List.filter_cons, if_neg (by rw [hpf]; simp)]
theorem windowTxns_mem (user : Nat) (dfrom dto : Date) (txns : List Transaction)
    (t : Transaction) (ht : t ∈ windowTxns user dfrom dto txns) :
    t ∈ txns ∧ t.user = user ∧ dfrom.toOrdinal ≤ t.date.toOrdinal ∧
      t.date.toOrdinal ≤ dto.toOrdinal := by
  have h := List.mem_filter.mp ht
  have h2 := h.2
  simp only [Bool.and_eq_true, decide_eq_true_eq, beq_iff_eq] at h2
  exact ⟨h.1, h2.1.1, h2.1.2, h2.2⟩

theorem iterPeriods_sorted (dfrom dto : Date) (b : String)
    (hf : dfrom.Valid) (ht : dto.Valid) :
    (iterPeriods dfrom dto b).Pairwise (fun a a' => a.toOrdinal < a'.toOrdinal) := by
  simp only [iterPeriods]
  split_ifs
  all_goals first
    | exact iterMonthly_sorted _ _ _ (monthFirst_spec dfrom hf).1 (monthFirst_spec dfrom hf).2.1
    | exact iterMonthly_sorted _ _ _ (monthFirst_spec dto ht).1 (monthFirst_spec dto ht).2.1
    | exact iterWeekly_sorted _ _ _ (mondayOnOrBefore_spec dfrom hf).1
    | exact iterWeekly_sorted _ _ _ (mondayOnOrBefore_spec dto ht).1

theorem iterPeriods_pairwise_ne (dfrom dto : Date) (b : String)
    (hf : dfrom.Valid) (ht : dto.Valid) :
    (iterPeriods dfrom dto b).Pairwise (fun a a' => a ≠ a') := by
  refine (iterPeriods_sorted dfrom dto b hf ht).imp ?_
  intro a a' h heq
  rw [heq] at h
  omega

theorem iterPeriods_ne_nil (dfrom dto : Date) (b : String)
    (hf : dfrom.Valid) (ht : dto.Valid) (hc : dfrom.toOrdinal ≤ dto.toOrdinal) :
    iterPeriods dfrom dto b ≠ [] := by
  simp only [iterPeriods]
  rw [if_pos hc, if_pos hc]
  by_cases hm : b = "monthly"
  · rw [if_pos hm]
    have hmf := monthFirst_spec dfrom hf
    have hguard : (monthFirst dfrom).toOrdinal ≤ dto.toOrdinal := by omega
    simp only [iterMonthly]
    rw [if_pos hguard]
    exact List.cons_ne_nil _ _
  · rw [if_neg hm]
    have hmon := mondayOnOrBefore_spec dfrom hf
    have hguard : (mondayOnOrBefore dfrom).toOrdinal ≤ dto.toOrdinal := by omega
    simp only [iterWeekly]
    rw [if_pos hguard]
    exact List.cons_ne_nil _ _

theorem filter_not_income_eq_expense (w : List Transaction)
    (htt : ∀ t ∈ w, t.transaction_type = "Income" ∨ t.transaction_type = "Expense") :
    w.filter (fun t => !(t.transaction_type == "Income"))
      = w.filter (fun t => t.transaction_type == "Expense") := by
  apply List.filter_congr
  intro t htw
  rcases htt t htw with h | h <;> rw [h] <;> decide

/-- C2: for every user, valid window and transaction set whose dates are
valid and whose types are the two model choices, summing the dashboard's
per-bucket income series over all bucket anchors of the window equals the
P&L report's income total for the same window, and the summed per-bucket
expense series equals the P&L expense total. -/
theorem c2_dashboard_pl_roundtrip (user : Nat) (dfrom dto : Date) (b : String)
    (txns : List Transaction)
    (hf : dfrom.Valid) (ht : dto.Valid) (hc : dfrom.toOrdinal ≤ dto.toOrdinal)
    (hb : b = "weekly" ∨ b = "monthly")
    (hdv : ∀ t ∈ txns, t.date.Valid)
    (htt : ∀ t ∈ txns, t.transaction_type = "Income" ∨ t.transaction_type = "Expense") :
    ((dashboardSeries user dfrom dto b txns).map (fun q => q.2.1)).sum =
        plIncomeTotal user dfrom dto txns ∧
    ((dashboardSeries user dfrom dto b txns).map (fun q => q.2.2.1)).sum =
        plExpenseTotal user dfrom dto txns := by
  have hnd := iterPeriods_pairwise_ne dfrom dto b hf ht
  have hcov : ∀ (p : Transaction → Bool), ∀ t ∈ windowTxns user dfrom dto txns,
      p t = true → anchorFor b t.date ∈ iterPeriods dfrom dto b := by
    intro p t htw _
    have hm := windowTxns_mem user dfrom dto txns t htw
    exact anchorFor_mem_iterPeriods dfrom dto t.date b hf ht (hdv t hm.1) hb hm.2.2.1 hm.2.2.2
  constructor
  · calc ((dashboardSeries user dfrom dto b txns).map (fun q => q.2.1)).sum
        = ((iterPeriods dfrom dto b).map (fun a =>
            sumAmounts ((windowTxns user dfrom dto txns).filter (fun t =>
              t.transaction_type == "Income" && anchorFor b t.date == a)))).sum := by
          simp only [dashboardSeries, List.map_map]
          apply congrArg List.sum
          apply List.map_congr_left
          intro a _
          simp only [Function.comp_apply, lookup_bucketMapOf]
      _ = sumAmounts ((windowTxns user dfrom dto txns).filter (fun t =>
            t.transaction_type == "Income")) :=
          sum_filter_partition (fun t => t.transaction_type == "Income")
            (fun t => anchorFor b t.date) (windowTxns user dfrom dto txns)
            (iterPeriods dfrom dto b) hnd (hcov _)
      _ = plIncomeTotal user dfrom dto txns := (caseSumIncome_eq _).symm
  · calc ((dashboardSeries user dfrom dto b txns).map (fun q => q.2.2.1)).sum
        = ((iterPeriods dfrom dto b).map (fun a =>
            sumAmounts ((windowTxns user dfrom dto txns).filter (fun t =>
              !(t.transaction_type == "Income") && anchorFor b t.date == a)))).sum := by
          simp only [dashboardSeries, List.map_map]
          apply congrArg List.sum
          apply List.map_congr_left
          intro a _
          simp only [Function.comp_apply, lookup_bucketMapOf]
      _ = sumAmounts ((windowTxns user dfrom dto txns).filter (fun t =>
            !(t.transaction_type == "Income"))) :=
          sum_filter_partition (fun t => !(t.transaction_type == "Income"))
            (fun t => anchorFor b t.date) (windowTxns user dfrom dto txns)
            (iterPeriods dfrom dto b) hnd (hcov _)
      _ = sumAmounts ((windowTxns user dfrom dto txns).filter (fun t =>
            t.transaction_type == "Expense")) :=
          congrArg sumAmounts (filter_not_income_eq_expense _
            (fun t htw => htt t (windowTxns_mem user dfrom dto txns t htw).1))
      _ = plExpenseTotal user dfrom dto txns := (caseSumExpense_eq _).symm

/-- Witness for C2: one income transaction of 5000 on 2025-10-08 inside the
weekly-bucketed window 2025-10-01..2025-10-14 for user 0. -/
theorem c2_dashboard_pl_roundtrip_witness :
    ((dashboardSeries 0 ⟨2025, 10, 1⟩ ⟨2025, 10, 14⟩ "weekly"
        [⟨1, 0, "Salary", 5000, "Income", some 1, ⟨2025, 10, 8⟩, ""⟩]).map
      (fun q => q.2.1)).sum =
      plIncomeTotal 0 ⟨2025, 10, 1⟩ ⟨2025, 10, 14⟩
        [⟨1, 0, "Salary", 5000, "Income", some 1, ⟨2025, 10, 8⟩, ""⟩] ∧
    ((dashboardSeries 0 ⟨2025, 10, 1⟩ ⟨2025, 10, 14⟩ "weekly"
        [⟨1, 0, "Salary", 5000, "Income", some 1, ⟨2025, 10, 8⟩, ""⟩]).map
      (fun q => q.2.2.1)).sum =
      plExpenseTotal 0 ⟨2025, 10, 1⟩ ⟨2025, 10, 14⟩
        [⟨1, 0, "Salary", 5000, "Income", some 1, ⟨2025, 10, 8⟩, ""⟩] :=
  c2_dashboard_pl_roundtrip 0 ⟨2025, 10, 1⟩ ⟨2025, 10, 14⟩ "weekly"
    [⟨1, 0, "Salary", 5000, "Income", some 1, ⟨2025, 10, 8⟩, ""⟩]
    (by decide) (by decide) (by decide) (Or.inl rfl)
    (by intro t htm; simp only [List.mem_singleton] at htm; rw [htm]; decide)
    (by intro t htm; simp only [List.mem_singleton] at htm; rw [htm]; exact Or.inl rfl)

/-- C3: the net total is computed as `income_total - expense_total` over
exact integer-cent amounts (no floating accumulation exists in the
embedding), in the P&L report and in the dashboard KPIs, and both views
agree on the income and expense totals of a window. -/
theorem c3_net_exact (user : Nat) (dfrom dto : Date) (txns : List Transaction) :
    plNetTotal user dfrom dto txns =
        plIncomeTotal user dfrom dto txns - plExpenseTotal user dfrom dto txns ∧
    dashNetTotal user dfrom dto txns =
        dashIncomeTotal user dfrom dto txns - dashExpenseTotal user dfrom dto txns ∧
    plIncomeTotal user dfrom dto txns = dashIncomeTotal user dfrom dto txns ∧
    plExpenseTotal user dfrom dto txns = dashExpenseTotal user dfrom dto txns :=
  ⟨rfl, rfl, caseSumIncome_eq _, caseSumExpense_eq _⟩

/-- C4: a window with no matching transactions yields all-zero report and
dashboard totals and a densified series with a zero row for every anchor
of the window, which is never empty. -/
theorem c4_empty_window (user : Nat) (dfrom dto : Date) (b : String)
    (txns : List Transaction)
    (hf : dfrom.Valid) (ht : dto.Valid) (hc : dfrom.toOrdinal ≤ dto.toOrdinal)
    (hw : windowTxns user dfrom dto txns = []) :
    plIncomeTotal user dfrom dto txns = 0 ∧
    plExpenseTotal user dfrom dto txns = 0 ∧
    plNetTotal user dfrom dto txns = 0 ∧
    dashIncomeTotal user dfrom dto txns = 0 ∧
    dashExpenseTotal user dfrom dto txns = 0 ∧
    dashNetTotal user dfrom dto txns = 0 ∧
    dashboardSeries user dfrom dto b txns =
      (iterPeriods dfrom dto b).map (fun a => (a, 0, 0, 0)) ∧
    dashboardSeries user dfrom dto b txns ≠ [] := by
  have h1 : plIncomeTotal user dfrom dto txns = 0 := by
    unfold plIncomeTotal
    rw [hw]
    rfl
  have h2 : plExpenseTotal user dfrom dto txns = 0 := by
    unfold plExpenseTotal
    rw [hw]
    rfl
  have h4 : dashIncomeTotal user dfrom dto txns = 0 := by
    unfold dashIncomeTotal
    rw [hw]
    rfl
  have h5 : dashExpenseTotal user dfrom dto txns = 0 := by
    unfold dashExpenseTotal
    rw [hw]
    rfl
  have hser : dashboardSeries user dfrom dto b txns =
      (iterPeriods dfrom dto b).map (fun a => (a, 0, 0, 0)) := by
    simp only [dashboardSeries, hw]
    apply List.map_congr_left
    intro a _
    rfl
  refine ⟨h1, h2, ?_, h4, h5, ?_, hser, ?_⟩
  · unfold plNetTotal
    rw [h1, h2]
    rfl
  · unfold dashNetTotal
    rw [h4, h5]
    rfl
  · rw [hser]
    simp only [ne_eq, List.map_eq_nil_iff]
    exact iterPeriods_ne_nil dfrom dto b hf ht hc

/-- Witness for C4 at the weekly window 2025-10-01..2025-10-14 of user 0
with no transactions at all. -/
theorem c4_empty_window_witness :
    (Date.mk 2025 10 1).Valid ∧ (Date.mk 2025 10 14).Valid ∧
    (Date.mk 2025 10 1).toOrdinal ≤ (Date.mk 2025 10 14).toOrdinal ∧
    windowTxns 0 ⟨2025, 10, 1⟩ ⟨2025, 10, 14⟩ [] = [] ∧
    dashboardSeries 0 ⟨2025, 10, 1⟩ ⟨2025, 10, 14⟩ "weekly" [] ≠ [] :=
  ⟨by decide, by decide, by decide, rfl,
    (c4_empty_window 0 ⟨2025, 10, 1⟩ ⟨2025, 10, 14⟩ "weekly" []
      (by decide) (by decide) (by decide) rfl).2.2.2.2.2.2.2⟩
theorem charToNat_inj (a b : Char) (h : a.toNat = b.toNat) : a = b := by
  have h2 := congrArg Char.ofNat h
  rwa [Char.ofNat_toNat, Char.ofNat_toNat] at h2

theorem charsLt_trans : ∀ s t u : List Char,
    charsLt s t = true → charsLt t u = true → charsLt s u = true := by
  intro s
  induction s with
  | nil =>
    intro t u h1 h2
    cases t with
    | nil => exact absurd h1 (by simp [charsLt])
    | cons b bs =>
      cases u with
      | nil => exact absurd h2 (by simp [charsLt])
      | cons c cs => rfl
  | cons a as ih =>
    intro t u h1 h2
    cases t with
    | nil => exact absurd h1 (by simp [charsLt])
    | cons b bs =>
      cases u with
      | nil => exact absurd h2 (by simp [charsLt])
      | cons c cs =>
        simp only [charsLt, Bool.or_eq_true, Bool.and_eq_true, decide_eq_true_eq] at h1 h2 ⊢
        rcases h1 with h1 | ⟨h1e, h1r⟩ <;> rcases h2 with h2 | ⟨h2e, h2r⟩
        · exact Or.inl (by omega)
        · exact Or.inl (by omega)
        · exact Or.inl (by omega)
        · exact Or.inr ⟨by omega, ih bs cs h1r h2r⟩

theorem charsLt_trichotomy : ∀ s t : List Char,
    charsLt s t = true ∨ charsLt t s = true ∨ s = t := by
  intro s
  induction s with
  | nil =>
    intro t
    cases t with
    | nil => exact Or.inr (Or.inr rfl)
    | cons b bs => exact Or.inl rfl
  | cons a as ih =>
    intro t
    cases t with
    | nil => exact Or.inr (Or.inl rfl)
    | cons b bs =>
      by_cases hab : a.toNat < b.toNat
      · refine Or.inl ?_
        simp only [charsLt, Bool.or_eq_true, Bool.and_eq_true, decide_eq_true_eq]
        exact Or.inl hab
      · by_cases hba : b.toNat < a.toNat
        · refine Or.inr (Or.inl ?_)
          simp only [charsLt, Bool.or_eq_true, Bool.and_eq_true, decide_eq_true_eq]
          exact Or.inl hba
        · have hea : a = b := charToNat_inj a b (by omega)
          subst hea
          rcases ih bs with h | h | h
          · refine Or.inl ?_
            simp only [charsLt, Bool.or_eq_true, Bool.and_eq_true, decide_eq_true_eq]
            exact Or.inr ⟨by trivial, h⟩
          · refine Or.inr (Or.inl ?_)
            simp only [charsLt, Bool.or_eq_true, Bool.and_eq_true, decide_eq_true_eq]
            exact Or.inr ⟨by trivial, h⟩
          · exact Or.inr (Or.inr (by rw [h]))

theorem csvLe_total (a b : Transaction) : csvLe a b = true ∨ csvLe b a = true := by
  simp only [csvLe, Bool.or_eq_true, Bool.and_eq_true, decide_eq_true_eq]
  by_cases h1 : a.date.toOrdinal < b.date.toOrdinal
  · exact Or.inl (Or.inl h1)
  · by_cases h2 : b.date.toOrdinal < a.date.toOrdinal
    · exact Or.inr (Or.inl h2)
    · have he : a.date.toOrdinal = b.date.toOrdinal := by omega
      rcases charsLt_trichotomy a.transaction_type.data b.transaction_type.data with h | h | h
      · exact Or.inl (Or.inr ⟨he, Or.inl h⟩)
      · exact Or.inr (Or.inr ⟨he.symm, Or.inl h⟩)
      · have hst : a.transaction_type = b.transaction_type := String.ext h
        by_cases hid : a.id ≤ b.id
        · exact Or.inl (Or.inr ⟨he, Or.inr ⟨hst, hid⟩⟩)
        · exact Or.inr (Or.inr ⟨he.symm, Or.inr ⟨hst.symm, by omega⟩⟩)

theorem csvLe_trans (a b c : Transaction) (h1 : csvLe a b = true) (h2 : csvLe b c = true) :
    csvLe a c = true := by
  simp only [csvLe, Bool.or_eq_true, Bool.and_eq_true, decide_eq_true_eq] at h1 h2 ⊢
  rcases h1 with h1 | ⟨h1e, h1r⟩
  · rcases h2 with h2 | ⟨h2e, h2r⟩
    · exact Or.inl (by omega)
    · exact Or.inl (by omega)
  · rcases h2 with h2 | ⟨h2e, h2r⟩
    · exact Or.inl (by omega)
    · refine Or.inr ⟨by omega, ?_⟩
      rcases h1r with h1r | ⟨h1s, h1i⟩
      · rcases h2r with h2r | ⟨h2s, h2i⟩
        · exact Or.inl (charsLt_trans _ _ _ h1r h2r)
        · exact Or.inl (by rw [← h2s]; exact h1r)
      · rcases h2r with h2r | ⟨h2s, h2i⟩
        · exact Or.inl (by rw [h1s]; exact h2r)
        · exact Or.inr ⟨h1s.trans h2s, by omega⟩

theorem insertLe_perm {α : Type} (le : α → α → Bool) (x : α) :
    ∀ l : List α, (insertLe le x l).Perm (x :: l) := by
  intro l
  induction l with
  | nil => exact List.Perm.refl _
  | cons y ys ih =>
    unfold insertLe
    by_cases h : le x y = true
    · rw [if_pos h]
    · rw [if_neg h]
      exact (ih.cons y).trans (List.Perm.swap x y ys)

theorem insSort_perm {α : Type} (le : α → α → Bool) :
    ∀ l : List α, (insSort le l).Perm l := by
  intro l
  induction l with
  | nil => exact List.Perm.refl _
  | cons x xs ih =>
    unfold insSort
    exact (insertLe_perm le x (insSort le xs)).trans (ih.cons x)

theorem insertLe_pairwise {α : Type} (le : α → α → Bool)
    (htot : ∀ a b, le a b = true ∨ le b a = true)
    (htrans : ∀ a b c, le a b = true → le b c = true → le a c = true) (x : α) :
    ∀ l : List α, l.Pairwise (fun a b => le a b = true) →
    (insertLe le x l).Pairwise (fun a b => le a b = true) := by
  intro l
  induction l with
  | nil =>
    intro _
    exact List.pairwise_cons.mpr ⟨by simp, List.Pairwise.nil⟩
  | cons y ys ih =>
    intro hp
    obtain ⟨hy, hys⟩ := List.pairwise_cons.mp hp
    unfold insertLe
    by_cases h : le x y = true
    · rw [if_pos h]
      refine List.pairwise_cons.mpr ⟨?_, hp⟩
      intro b hb
      rcases List.mem_cons.mp hb with rfl | hb2
      · exact h
      · exact htrans x y b h (hy b hb2)
    · rw [if_neg h]
      refine List.pairwise_cons.mpr ⟨?_, ih hys⟩
      intro b hb
      have hmem := (insertLe_perm le x ys).mem_iff.mp hb
      rcases List.mem_cons.mp hmem with hb1 | hb2
      · rw [hb1]
        exact (htot x y).resolve_left h
      · exact hy b hb2

theorem insSort_pairwise {α : Type} (le : α → α → Bool)
    (htot : ∀ a b, le a b = true ∨ le b a = true)
    (htrans : ∀ a b c, le a b = true → le b c = true → le a c = true) :
    ∀ l : List α, (insSort le l).Pairwise (fun a b => le a b = true) := by
  intro l
  induction l with
  | nil => exact List.Pairwise.nil
  | cons x xs ih =>
    unfold insSort
    exact insertLe_pairwise le htot htrans x _ ih

theorem digitChar_isDigit (n : Nat) (h : n < 10) : (digitChar n).isDigit = true := by
  interval_cases n <;> decide

theorem natDigitChar_isDigit (n : Nat) (h : n < 10) : (Nat.digitChar n).isDigit = true := by
  interval_cases n <;> decide

theorem toDigitsCore_isDigit (b : Nat) (hb2 : 2 ≤ b) (hb : b ≤ 10) :
    ∀ (f n : Nat) (l : List Char), (∀ c ∈ l, c.isDigit = true) →
    ∀ c ∈ Nat.toDigitsCore b f n l, c.isDigit = true := by
  intro f
  induction f with
  | zero =>
    intro n l hl c hc
    exact hl c hc
  | succ k ih =>
    intro n l hl c hc
    simp only [Nat.toDigitsCore] at hc
    by_cases hz : n / b = 0
    · rw [if_pos hz] at hc
      rcases List.mem_cons.mp hc with rfl | hc2
      · exact natDigitChar_isDigit _ (by
          have := Nat.mod_lt n (show 0 < b by omega)
          omega)
      · exact hl c hc2
    · rw [if_neg hz] at hc
      refine ih (n / b) (Nat.digitChar (n % b) :: l) ?_ c hc
      intro c2 hc2
      rcases List.mem_cons.mp hc2 with rfl | hc3
      · exact natDigitChar_isDigit _ (by
          have := Nat.mod_lt n (show 0 < b by omega)
          omega)
      · exact hl c2 hc3

theorem repr_isDigit (n : Nat) : ∀ c ∈ (Nat.repr n).data, c.isDigit = true := by
  intro c hc
  have hdef : (Nat.repr n).data = Nat.toDigitsCore 10 (n + 1) n [] := rfl
  rw [hdef] at hc
  exact toDigitsCore_isDigit 10 (by omega) (by omega) (n + 1) n []
    (by intro c2 h2; simp at h2) c hc

theorem two_data (n : Nat) : (two n).data = [digitChar (n / 10), digitChar (n % 10)] := rfl

theorem fmtAmount_decimal (cents : Int) :
    ∃ pre post : List Char,
      (fmtAmount cents).data = pre ++ '.' :: post ∧
      post.length = 2 ∧ (∀ c ∈ post, c.isDigit = true) ∧ '.' ∉ pre := by
  have hpost : ∀ m : Nat, ∀ c ∈ [digitChar (m % 100 / 10), digitChar (m % 100 % 10)],
      c.isDigit = true := by
    intro m c hc
    rcases List.mem_cons.mp hc with rfl | hc2
    · exact digitChar_isDigit _ (by omega)
    · rcases List.mem_cons.mp hc2 with rfl | hc3
      · exact digitChar_isDigit _ (by omega)
      · exact absurd hc3 (by simp)
  unfold fmtAmount
  by_cases hneg : cents < 0
  · rw [if_pos hneg]
    refine ⟨'-' :: (Nat.repr ((-cents).toNat / 100)).data,
      [digitChar ((-cents).toNat % 100 / 10), digitChar ((-cents).toNat % 100 % 10)],
      ?_, rfl, hpost _, ?_⟩
    · simp [String.data_append, two_data]
    · intro hmem
      rcases List.mem_cons.mp hmem with h | h
      · exact absurd h (by decide)
      · exact absurd (repr_isDigit _ _ h) (by decide)
  · rw [if_neg hneg]
    refine ⟨(Nat.repr (cents.toNat / 100)).data,
      [digitChar (cents.toNat % 100 / 10), digitChar (cents.toNat % 100 % 10)],
      ?_, rfl, hpost _, ?_⟩
    · simp [String.data_append, two_data]
    · intro hmem
      exact absurd (repr_isDigit _ _ hmem) (by decide)

theorem dateStr_data (d : Date) : (dateStr d).data =
    [digitChar (d.year / 1000), digitChar (d.year / 100 % 10), digitChar (d.year / 10 % 10),
      digitChar (d.year % 10), '-', digitChar (d.month / 10), digitChar (d.month % 10),
      '-', digitChar (d.day / 10), digitChar (d.day % 10)] := by
  simp only [dateStr, four, two, String.data_append]
  rfl

theorem head?_dropWhile (p : Char → Bool) :
    ∀ (l : List Char) (c : Char), (l.dropWhile p).head? = some c → p c = false := by
  intro l
  induction l with
  | nil => intro c h; simp at h
  | cons a l ih =>
    intro c h
    rw [List.dropWhile_cons] at h
    by_cases hp : p a = true
    · rw [if_pos hp] at h
      exact ih c h
    · rw [if_neg hp, List.head?_cons] at h
      obtain rfl : a = c := Option.some.inj h
      cases hv : p a
      · rfl
      · exact absurd hv hp

theorem getLast?_dropWhile (p : Char → Bool) :
    ∀ l : List Char, l.dropWhile p ≠ [] → (l.dropWhile p).getLast? = l.getLast? := by
  intro l
  induction l with
  | nil => intro h; exact absurd rfl h
  | cons a l ih =>
    intro h
    rw [List.dropWhile_cons] at h ⊢
    by_cases hp : p a = true
    · rw [if_pos hp] at h ⊢
      have hl : l ≠ [] := by
        intro hnil
        rw [hnil] at h
        exact h rfl
      rw [ih h]
      cases l with
      | nil => exact absurd rfl hl
      | cons b l2 => rw [List.getLast?_cons_cons]
    · rw [if_neg hp]

theorem trimChars_ends (l : List Char) :
    (∀ c, (trimChars l).head? = some c → c.isWhitespace = false) ∧
    (∀ c, (trimChars l).getLast? = some c → c.isWhitespace = false) := by
  unfold trimChars
  constructor
  · intro c hc
    rw [List.head?_reverse] at hc
    have hne : List.dropWhile Char.isWhitespace
        (List.dropWhile Char.isWhitespace l).reverse ≠ [] := by
      intro hnil
      rw [hnil] at hc
      simp at hc
    rw [getLast?_dropWhile _ _ hne, List.getLast?_reverse] at hc
    exact head?_dropWhile _ _ _ hc
  · intro c hc
    rw [List.getLast?_reverse] at hc
    exact head?_dropWhile _ _ _ hc

theorem trimChars_subset (l : List Char) : ∀ c, c ∈ trimChars l → c ∈ l := by
  intro c hc
  unfold trimChars at hc
  rw [List.mem_reverse] at hc
  have h1 := (List.dropWhile_sublist _).subset hc
  rw [List.mem_reverse] at h1
  exact (List.dropWhile_sublist _).subset h1

theorem cleanNotes_no_newline (s : String) : '\n' ∉ (cleanNotes s).data := by
  intro h
  have h2 : '\n' ∈ s.data.map (fun c => if c = '\n' then ' ' else c) :=
    trimChars_subset _ _ h
  rcases List.mem_map.mp h2 with ⟨a, _, ha⟩
  by_cases hn : a = '\n'
  · rw [if_pos hn] at ha
    exact absurd ha (by decide)
  · rw [if_neg hn] at ha
    exact hn ha

theorem cleanNotes_ends (s : String) :
    (∀ c, (cleanNotes s).data.head? = some c → c.isWhitespace = false) ∧
    (∀ c, (cleanNotes s).data.getLast? = some c → c.isWhitespace = false) :=
  trimChars_ends (s.data.map (fun c => if c = '\n' then ' ' else c))

/-- C5: the CSV export is the fixed six-column header row followed by one
row per windowed transaction (a permutation bijection with the windowed
set), sorted by date, then transaction type, then id; each data row is
`[date, type, category name, title, amount, notes]` with the date rendered
as a ten-character `YYYY-MM-DD` string, the amount carrying exactly two
digits after the decimal point, and the notes free of newlines and
trimmed of surrounding whitespace. -/
theorem c5_csv_export (user : Nat) (dfrom dto : Date) (cats : List Category)
    (txns : List Transaction) :
    (csvRows user dfrom dto cats txns).head? = some csvHeader ∧
    csvHeader = ["Date", "Type", "Category", "Title", "Amount", "Notes"] ∧
    (insSort csvLe (windowTxns user dfrom dto txns)).Perm
        (windowTxns user dfrom dto txns) ∧
    csvDataRows user dfrom dto cats txns
      = (insSort csvLe (windowTxns user dfrom dto txns)).map (csvRowOf cats) ∧
    (insSort csvLe (windowTxns user dfrom dto txns)).Pairwise
        (fun t t' => csvLe t t' = true) ∧
    (csvDataRows user dfrom dto cats txns).length
      = (windowTxns user dfrom dto txns).length ∧
    (∀ t : Transaction, csvRowOf cats t =
        [dateStr t.date, t.transaction_type, catName cats t, t.title,
          fmtAmount t.amount, cleanNotes t.notes] ∧
      (csvRowOf cats t).length = 6) ∧
    (∀ t : Transaction, (dateStr t.date).length = 10 ∧
      (dateStr t.date).data[4]? = some '-' ∧ (dateStr t.date).data[7]? = some '-') ∧
    (∀ t : Transaction, ∃ pre post : List Char,
      (fmtAmount t.amount).data = pre ++ '.' :: post ∧ post.length = 2 ∧
      (∀ c ∈ post, c.isDigit = true) ∧ '.' ∉ pre) ∧
    (∀ s : String, '\n' ∉ (cleanNotes s).data ∧
      (∀ c, (cleanNotes s).data.head? = some c → c.isWhitespace = false) ∧
      (∀ c, (cleanNotes s).data.getLast? = some c → c.isWhitespace = false)) := by
  refine ⟨rfl, rfl, insSort_perm csvLe _, rfl,
    insSort_pairwise csvLe csvLe_total csvLe_trans _, ?_, ?_, ?_,
    fun t => fmtAmount_decimal t.amount, ?_⟩
  · unfold csvDataRows
    rw [List.length_map]
    exact (insSort_perm csvLe _).length_eq
  · intro t
    exact ⟨rfl, rfl⟩
  · intro t
    refine ⟨?_, ?_, ?_⟩
    · rw [show (dateStr t.date).length = (dateStr t.date).data.length from rfl, dateStr_data]
      rfl
    · rw [dateStr_data]
      rfl
    · rw [dateStr_data]
      rfl
  · intro s
    exact ⟨cleanNotes_no_newline s, (cleanNotes_ends s).1, (cleanNotes_ends s).2⟩
set_option maxRecDepth 100000 in
/-- C6: when the `date_to` / `date_from` query strings are missing or fail
`_parse_yyyymmdd` (bad month, bad day, non-digits, wrong arity, empty),
they are silently treated as absent: `date_to` falls back to today and
`date_from` to `date_to - 29` days for the report/CSV window and
`date_to - 89` days for the dashboard window; parsing never raises. -/
theorem c6_unparseable_window_defaults (qFrom qTo : Option String) (today : Date)
    (hTo : qTo.bind parse_yyyymmdd = none)
    (hFrom : qFrom.bind parse_yyyymmdd = none) :
    reportWindow qFrom qTo today = (today.subDays 29, today) ∧
    dashboardWindow qFrom qTo today = (today.subDays 89, today) ∧
    parse_yyyymmdd "" = none ∧
    parse_yyyymmdd "2025-13-01" = none ∧
    parse_yyyymmdd "2025-02-30" = none ∧
    parse_yyyymmdd "garbage" = none ∧
    parse_yyyymmdd "2025-10" = none ∧
    parse_yyyymmdd "2025-10-08-01" = none := by
  refine ⟨?_, ?_, by decide, by decide, by decide, by decide, by decide, by decide⟩
  · simp only [reportWindow, hTo, hFrom, Option.getD_none]
  · simp only [dashboardWindow, hTo, hFrom, Option.getD_none]

set_option maxRecDepth 100000 in
/-- Witness for C6 at the malformed inputs `garbage` and `2025-13-01` with
today = 2025-10-08. -/
theorem c6_unparseable_window_defaults_witness :
    (some "garbage").bind parse_yyyymmdd = none ∧
    (some "2025-13-01").bind parse_yyyymmdd = none ∧
    reportWindow (some "garbage") (some "2025-13-01") ⟨2025, 10, 8⟩ =
      ((Date.mk 2025 10 8).subDays 29, ⟨2025, 10, 8⟩) ∧
    dashboardWindow (some "garbage") (some "2025-13-01") ⟨2025, 10, 8⟩ =
      ((Date.mk 2025 10 8).subDays 89, ⟨2025, 10, 8⟩) :=
  ⟨by decide, by decide,
    (c6_unparseable_window_defaults (some "garbage") (some "2025-13-01") ⟨2025, 10, 8⟩
      (by decide) (by decide)).1,
    (c6_unparseable_window_defaults (some "garbage") (some "2025-13-01") ⟨2025, 10, 8⟩
      (by decide) (by decide)).2.1⟩

/-- C7: creating a second category with the same type and a
case-insensitively equal (whitespace-normalized) name as an existing
category of the same user is rejected, and a successful creation preserves
the per-user case-folded `(user, type, name)` uniqueness invariant. -/
theorem c7_category_case_insensitive_unique (db : List Category) (newId user : Nat)
    (name ctype : String) :
    (∀ c ∈ db, c.user = user → c.type = ctype →
      iexact c.name (normName name) = true →
      createCategory db newId user name ctype = none) ∧
    (∀ db', CatInvariant db → createCategory db newId user name ctype = some db' →
      CatInvariant db') := by
  constructor
  · intro c hc hcu hct hex
    unfold createCategory
    by_cases hval : normName name = "" ∨ (ctype ≠ "Income" ∧ ctype ≠ "Expense")
    · rw [if_pos hval]
    · rw [if_neg hval]
      have hn : ¬ normName name = "" := fun h => hval (Or.inl h)
      have hty : ctype = "Income" ∨ ctype = "Expense" := by
        by_contra hcon
        push_neg at hcon
        exact hval (Or.inr hcon)
      have hts : ctype ≠ "" := by
        rcases hty with h | h <;> rw [h] <;> decide
      have hany : (db.any fun c2 => c2.user == user && c2.type == ctype &&
          iexact c2.name (normName name)) = true := by
        refine List.any_eq_true.mpr ⟨c, hc, ?_⟩
        simp only [Bool.and_eq_true, beq_iff_eq]
        exact ⟨⟨hcu, hct⟩, hex⟩
      have hcn : clean_name db user ctype name = none := by
        simp only [clean_name]
        rw [if_pos ⟨hn, hts⟩, if_pos hany]
      rw [hcn]
  · intro db' hinv hcreate
    unfold createCategory at hcreate
    by_cases hval : normName name = "" ∨ (ctype ≠ "Income" ∧ ctype ≠ "Expense")
    · rw [if_pos hval] at hcreate
      exact absurd hcreate (by simp)
    · rw [if_neg hval] at hcreate
      have hn : ¬ normName name = "" := fun h => hval (Or.inl h)
      have hty : ctype = "Income" ∨ ctype = "Expense" := by
        by_contra hcon
        push_neg at hcon
        exact hval (Or.inr hcon)
      have hts : ctype ≠ "" := by
        rcases hty with h | h <;> rw [h] <;> decide
      rcases hfind : clean_name db user ctype name with _ | n
      · rw [hfind] at hcreate
        exact absurd hcreate (by simp)
      · rw [hfind] at hcreate
        have hdb : db' = db ++ [⟨newId, user, n, ctype⟩] :=
          (Option.some.inj hcreate).symm
        simp only [clean_name] at hfind
        rw [if_pos ⟨hn, hts⟩] at hfind
        by_cases hany : (db.any fun c2 => c2.user == user && c2.type == ctype &&
            iexact c2.name (normName name)) = true
        · rw [if_pos hany] at hfind
          exact absurd hfind (by simp)
        · rw [if_neg hany] at hfind
          have hnn : n = normName name := (Option.some.inj hfind).symm
          subst hdb
          unfold CatInvariant at hinv ⊢
          rw [List.pairwise_append]
          refine ⟨hinv, by simp, ?_⟩
          intro c hcd c2 hc2
          simp only [List.mem_singleton] at hc2
          subst hc2
          rintro ⟨hcu, hct, hln⟩
          apply hany
          refine List.any_eq_true.mpr ⟨c, hcd, ?_⟩
          simp only [Bool.and_eq_true, beq_iff_eq, iexact]
          rw [← hnn]
          exact ⟨⟨hcu, hct⟩, hln⟩

/-- Witness for C7: user 0 already has the Expense category `Rent`; posting
` rent ` (same type, case-insensitively equal after normalization) is
rejected. -/
theorem c7_category_case_insensitive_unique_witness :
    ⟨1, 0, "Rent", "Expense"⟩ ∈ [(⟨1, 0, "Rent", "Expense"⟩ : Category)] ∧
    iexact "Rent" (normName " rent ") = true ∧
    createCategory [⟨1, 0, "Rent", "Expense"⟩] 2 0 " rent " "Expense" = none :=
  ⟨by decide, by decide,
    (c7_category_case_insensitive_unique [⟨1, 0, "Rent", "Expense"⟩] 2 0
        " rent " "Expense").1 ⟨1, 0, "Rent", "Expense"⟩ (by decide) rfl rfl (by decide)⟩

/-- C8: a transaction save succeeds exactly when its referenced category
resolves, belongs to the same user, and carries the transaction's type
(plus the field validations); on success the row is appended unchanged,
and a user/type violation yields a validation error with no write. -/
theorem c8_transaction_category_integrity (cats : List Category)
    (db : List Transaction) (t : Transaction) :
    (∀ db', saveTransaction cats db t = some db' →
      db' = db ++ [t] ∧ ∃ cid c, t.category = some cid ∧
        cats.find? (fun c2 => c2.id == cid) = some c ∧
        c.user = t.user ∧ c.type = t.transaction_type) ∧
    (∀ cid c, t.category = some cid →
      cats.find? (fun c2 => c2.id == cid) = some c →
      c.user ≠ t.user ∨ c.type ≠ t.transaction_type →
      saveTransaction cats db t = none) := by
  constructor
  · intro db' hsave
    unfold saveTransaction at hsave
    rcases hclean : fullCleanTransaction cats t with _ | t2
    · rw [hclean] at hsave
      exact absurd hsave (by simp)
    · rw [hclean] at hsave
      have hdb : db' = db ++ [t2] := (Option.some.inj hsave).symm
      unfold fullCleanTransaction at hclean
      by_cases h1 : t.transaction_type ≠ "Income" ∧ t.transaction_type ≠ "Expense"
      · rw [if_pos h1] at hclean
        exact absurd hclean (by simp)
      · rw [if_neg h1] at hclean
        by_cases h2 : t.amount < 1
        · rw [if_pos h2] at hclean
          exact absurd hclean (by simp)
        · rw [if_neg h2] at hclean
          rcases hcat : t.category with _ | cid
          · simp only [hcat] at hclean
            exact absurd hclean (by simp)
          · simp only [hcat] at hclean
            rcases hfind : cats.find? (fun c2 => c2.id == cid) with _ | c
            · simp only [hfind] at hclean
              exact absurd hclean (by simp)
            · simp only [hfind] at hclean
              by_cases h3 : c.user ≠ t.user
              · rw [if_pos h3] at hclean
                exact absurd hclean (by simp)
              · rw [if_neg h3] at hclean
                by_cases h4 : c.type ≠ t.transaction_type
                · rw [if_pos h4] at hclean
                  exact absurd hclean (by simp)
                · rw [if_neg h4] at hclean
                  have ht2 : t2 = t := (Option.some.inj hclean).symm
                  rw [ht2] at hdb
                  push_neg at h3 h4
                  exact ⟨hdb, cid, c, rfl, hfind, h3, h4⟩
  · intro cid c hcat hfind hviol
    unfold saveTransaction
    have hclean : fullCleanTransaction cats t = none := by
      unfold fullCleanTransaction
      by_cases h1 : t.transaction_type ≠ "Income" ∧ t.transaction_type ≠ "Expense"
      · rw [if_pos h1]
      · rw [if_neg h1]
        by_cases h2 : t.amount < 1
        · rw [if_pos h2]
        · rw [if_neg h2]
          simp only [hcat, hfind]
          rcases hviol with hv | hv
          · rw [if_pos hv]
          · by_cases h3 : c.user ≠ t.user
            · rw [if_pos h3]
            · rw [if_neg h3, if_pos hv]
    rw [hclean]

/-- Witness for C8: user 5 tries to persist an Expense transaction that
references user 0's category; the save is rejected. -/
theorem c8_transaction_category_integrity_witness :
    saveTransaction [⟨1, 0, "Food", "Expense"⟩] []
      ⟨1, 5, "Lunch", 150, "Expense", some 1, ⟨2025, 10, 8⟩, ""⟩ = none :=
  (c8_transaction_category_integrity [⟨1, 0, "Food", "Expense"⟩] []
      ⟨1, 5, "Lunch", 150, "Expense", some 1, ⟨2025, 10, 8⟩, ""⟩).2
    1 ⟨1, 0, "Food", "Expense"⟩ rfl (by decide) (Or.inl (by decide))

/-- C9: deleting a category that is still referenced by a transaction
fails: the protected-delete message is reported and both the category
table and the transaction table are returned unchanged. -/
theorem c9_protected_delete (cats : List Category) (txns : List Transaction)
    (cid : Nat) (href : ∃ t ∈ txns, t.category = some cid) :
    deleteCategory cats txns cid = (some protectedDeleteMessage, cats, txns) := by
  unfold deleteCategory
  have hany : (txns.any fun t => t.category == some cid) = true := by
    rcases href with ⟨t, htm, hc⟩
    refine List.any_eq_true.mpr ⟨t, htm, ?_⟩
    rw [hc]
    simp
  rw [if_pos hany]

/-- Witness for C9: category 1 is referenced by one transaction; the delete
request returns the message and leaves both tables untouched. -/
theorem c9_protected_delete_witness :
    deleteCategory [⟨1, 0, "Food", "Expense"⟩]
      [⟨1, 0, "Lunch", 150, "Expense", some 1, ⟨2025, 10, 8⟩, ""⟩] 1 =
      (some protectedDeleteMessage, [⟨1, 0, "Food", "Expense"⟩],
        [⟨1, 0, "Lunch", 150, "Expense", some 1, ⟨2025, 10, 8⟩, ""⟩]) :=
  c9_protected_delete [⟨1, 0, "Food", "Expense"⟩]
    [⟨1, 0, "Lunch", 150, "Expense", some 1, ⟨2025, 10, 8⟩, ""⟩] 1
    ⟨⟨1, 0, "Lunch", 150, "Expense", some 1, ⟨2025, 10, 8⟩, ""⟩,
      List.mem_singleton.mpr rfl, rfl⟩
/-- Witness for C1 at the window 2025-10-01..2025-10-14 with the weekly
bucket: both endpoints are valid and the first anchor is the Monday on or
before the earlier endpoint. -/
theorem c1_iter_periods_witness :
    (Date.mk 2025 10 1).Valid ∧ (Date.mk 2025 10 14).Valid ∧
    (iterPeriods ⟨2025, 10, 1⟩ ⟨2025, 10, 14⟩ "weekly").head? =
      some (mondayOnOrBefore
        (if (Date.mk 2025 10 1).toOrdinal ≤ (Date.mk 2025 10 14).toOrdinal
          then ⟨2025, 10, 1⟩ else ⟨2025, 10, 14⟩)) :=
  ⟨by decide, by decide,
    ((c1_iter_periods ⟨2025, 10, 1⟩ ⟨2025, 10, 14⟩ "weekly"
        (by decide) (by decide)).2.2.1 rfl).1⟩
end MoneyTracker
